import Mathlib

/-! Verification of the `ks install kind` plug-in (kubectl-plugin/install/kind.go).

The development embeds the command runner, the stream relay, the
pull-and-load jobs, the wait-group batches, the bring-up pipeline and the
nightly tag resolution of `kind.go` as Lean definitions, and proves the
properties of the specification about them.

Conventions of the embedding:

* a Go `error` is `Option GoError` (`none` is `nil`); `io.EOF` is the
  distinguished value `GoError.EOF`;
* an `io.Reader` is the sequence of results its successive `Read` calls give;
* an `io.Writer` is the bytes it has accepted so far plus the outcomes of its
  next `Write` calls;
* an external process is described by what `Start`, its two pipes and `Wait`
  give, and by whether it stays blocked on a pipe that is left unread; it may
  depend on everything that happened before it was started; a call of
  `execCommand` that never returns is `none`;
* the goroutines of a batch are threads of a step function, and a run is fixed
  by a schedule, the order in which the threads take their turns; the
  properties of a batch are proved for every schedule.
-/

namespace Ks

/-! ## Streams -/

/-- One byte of a stream. -/
abbrev Byte := Nat

/-- A non-nil Go `error`. `EOF` is `io.EOF`; every other error is `other code`. -/
inductive GoError where
  | EOF : GoError
  | other (code : Nat) : GoError
  deriving DecidableEq, Repr

/-- An `io.Reader` as seen by a caller that reads until the first non-nil error:
`chunks` are the byte slices of the successive `Read` calls that return a nil
error (a slice may be empty), and the next `Read` returns `lastData` together
with the non-nil error `lastErr`. Every slice fits the caller's buffer. -/
structure Reader where
  chunks : List (List Byte)
  lastData : List Byte
  lastErr : GoError
  deriving Repr

/-- A `Write` call that fails: `accepted` bytes of the slice reach the sink, and
`err` is returned. -/
structure WriteFault where
  accepted : Nat
  err : GoError
  deriving DecidableEq, Repr

/-- An `io.Writer`: the bytes accepted so far, the number of `Write` calls made
so far, and the outcome of every `Write` call by its number (`none`: the call
accepts the whole slice and returns a nil error). -/
structure Sink where
  written : List Byte
  calls : Nat
  fault : Nat → Option WriteFault

/-- The call `w.Write(d)`: the new state of the sink and the error returned. -/
def Sink.write (w : Sink) (d : List Byte) : Sink × Option GoError :=
  match w.fault w.calls with
  | none => ({ w with written := w.written ++ d, calls := w.calls + 1 }, none)
  | some f =>
    ({ w with written := w.written ++ d.take f.accepted, calls := w.calls + 1 }, some f.err)

/-- A sink none of whose writes fails. -/
def Sink.allSucceed (w : Sink) : Prop := ∀ i, w.fault i = none

/-- A fresh sink whose writes all succeed. -/
def Sink.ok : Sink := { written := [], calls := 0, fault := fun _ => none }

/-- A fresh sink whose write number `i` fails with `f` and whose other writes
succeed. -/
def Sink.failingAt (i : Nat) (f : WriteFault) : Sink :=
  { written := [], calls := 0, fault := fun j => if j = i then some f else none }

/-- All the bytes a reader delivers, in order. -/
def Reader.bytes (r : Reader) : List Byte := r.chunks.flatten ++ r.lastData

/-- What `copyAndCapture` leaves behind: the two return values (`out`, `err`),
the sink after the call and the number of `Read` calls issued. -/
structure CopyResult where
  out : List Byte
  err : Option GoError
  sink : Sink
  reads : Nat

/-- The tail of one iteration of the loop of `copyAndCapture`, for the `Read`
that returned a non-nil error `err` (lines 281-287): `io.EOF` becomes `nil`. -/
def filterEOF (err : GoError) : Option GoError :=
  if err = GoError.EOF then none else some err

/-- The `for` loop of `copyAndCapture` (lines 271-288), with `out`, the sink and
the number of reads done so far as loop state. The buffer of 1024 bytes bounds
the slice a `Read` can return, and plays no other part in the loop. -/
def copyLoop (lastData : List Byte) (lastErr : GoError) :
    List (List Byte) → Sink → List Byte → Nat → CopyResult
  | [], w, out, k =>
    -- n, err := r.Read(buf[:]) with err != nil
    if 0 < lastData.length then
      match w.write lastData with
      | (w1, some werr) => ⟨out ++ lastData, some werr, w1, k + 1⟩
      | (w1, none) => ⟨out ++ lastData, filterEOF lastErr, w1, k + 1⟩
    else
      ⟨out, filterEOF lastErr, w, k + 1⟩
  | d :: rest, w, out, k =>
    -- n, err := r.Read(buf[:]) with err == nil
    if 0 < d.length then
      match w.write d with
      | (w1, some werr) => ⟨out ++ d, some werr, w1, k + 1⟩
      | (w1, none) => copyLoop lastData lastErr rest w1 (out ++ d) (k + 1)
    else
      copyLoop lastData lastErr rest w out (k + 1)

/-- Embedding of `copyAndCapture(w io.Writer, r io.Reader) ([]byte, error)`. -/
def copyAndCapture (w : Sink) (r : Reader) : CopyResult :=
  copyLoop r.lastData r.lastErr r.chunks w [] 0

/-! ## The command runner -/

/-- A command line: the executable and its arguments. -/
structure Cmd where
  name : String
  args : List String
  deriving DecidableEq, Repr

/-- What the external process behind an `exec.Cmd` does: the error of `Start`,
what its two pipes deliver to a reader that reads them to the end, the error
of `Wait`, and `blocks`: whether the process, when the relays leave that many
bytes of its standard output and of its standard error unread, stays blocked
for ever in a write to a full pipe (the capacity of a pipe belongs to the
operating system). -/
structure Proc where
  startErr : Option GoError
  stdout : Reader
  stderr : Reader
  waitErr : Option GoError
  blocks : Nat → Nat → Bool

/-- A process blocks when more than `cap` bytes are left unread in one of its
pipes. -/
def pipeBlocks (cap : Nat) : Nat → Nat → Bool :=
  fun unreadStdout unreadStderr => decide (cap < unreadStdout) || decide (cap < unreadStderr)

/-- The number of bytes of a reader that a relay which stopped after `reads`
calls of `Read` has not read. -/
def Reader.unread (r : Reader) (reads : Nat) : Nat :=
  ((r.chunks ++ [r.lastData]).drop reads).flatten.length

/-- What one call of `execCommand` leaves behind: the returned error, the number
of `copyAndCapture` calls made, the number of goroutines started, whether
`command.Wait()` was called, and the two sinks `os.Stdout` and `os.Stderr`. -/
structure ExecResult where
  err : Option GoError
  relays : Nat
  goroutines : Nat
  waited : Bool
  stdout : Sink
  stderr : Sink

/-- Embedding of `execCommand(name string, arg ...string) (err error)`, given
the behaviour `p` of the process the command line denotes and the state of
`os.Stdout` and `os.Stderr`; `none`: the call never returns. The two relays
work on disjoint readers and sinks. A relay stops reading its pipe at its first
failed write (or failed read). When the process stays blocked on what the
relays left unread it never exits, so `command.Wait()` never returns, whether
or not the relays have both returned; otherwise the process runs to its exit,
each relay sees the rest of its pipe, both return, `wg.Wait()` passes and
`command.Wait()` gives its error. Both relay results are dropped
(`_, _ = copyAndCapture(...)`). The errors of `StdoutPipe` and `StderrPipe` are
dropped by the source as well, and the pipes are taken to exist. -/
def execCommand (p : Proc) (osStdout osStderr : Sink) : Option ExecResult :=
  match p.startErr with
  | some e =>
    some { err := some e, relays := 0, goroutines := 0, waited := false,
           stdout := osStdout, stderr := osStderr }
  | none =>
    let r1 := copyAndCapture osStdout p.stdout
    let r2 := copyAndCapture osStderr p.stderr
    if p.blocks (p.stdout.unread r1.reads) (p.stderr.unread r2.reads) then none
    else
      some { err := p.waitErr, relays := 2, goroutines := 1, waited := true,
             stdout := r1.sink, stderr := r2.sink }

/-! ## Failure points of a relay -/

/-- The number of `Write` calls the loop of `copyAndCapture` makes for the
slices `l`: one for each slice that is not empty. -/
def writesFor (l : List (List Byte)) : Nat :=
  (l.filter (fun c => decide (0 < c.length))).length

/-- The first failing operation of the relay of reader `r` into sink `w`, in the
order in which the loop of `copyAndCapture` examines outcomes: the bytes a
`Read` delivered are written before the error of that `Read` is looked at.
`FirstFailure w r pre p e` says that the `Read` calls before the failure
delivered the slices `pre`, that `p` are the bytes of the failing iteration that
reached the sink, and that `e` is the error of the failing operation. -/
inductive FirstFailure (w : Sink) (r : Reader) : List (List Byte) → List Byte → GoError → Prop
  | write (pre : List (List Byte)) (d : List Byte) (post : List (List Byte)) (f : WriteFault)
      (hsplit : r.chunks ++ [r.lastData] = pre ++ d :: post)
      (hd : d ≠ [])
      (hbefore : ∀ j, j < writesFor pre → w.fault (w.calls + j) = none)
      (hfail : w.fault (w.calls + writesFor pre) = some f) :
      FirstFailure w r pre (d.take f.accepted) f.err
  | read
      (hwrites : ∀ j, j < writesFor (r.chunks ++ [r.lastData]) → w.fault (w.calls + j) = none)
      (herr : r.lastErr ≠ GoError.EOF) :
      FirstFailure w r r.chunks r.lastData r.lastErr

/-- The first I/O error of the relay in the order in which the operations
happen, as the specification words it ("the first I/O error encountered"): a
`Read` reports its error when it returns, before the bytes it delivered are
written. -/
def firstErrorEncountered (w : Sink) (r : Reader) : Option GoError :=
  go r.chunks w
where
  /-- Walk over the reads that return a nil error. -/
  go : List (List Byte) → Sink → Option GoError
    | [], w =>
      if r.lastErr ≠ GoError.EOF then some r.lastErr
      else if 0 < r.lastData.length then (w.write r.lastData).2
      else none
    | d :: rest, w =>
      if 0 < d.length then
        match w.write d with
        | (_, some werr) => some werr
        | (w1, none) => go rest w1
      else go rest w

/-! ## Calendar dates and the two layouts of `time` -/

/-- A calendar date, as `time.Time` is used in `getNightlyTag`: only the year,
the month and the day of the month are observed. -/
structure Date where
  year : Nat
  month : Nat
  day : Nat
  deriving DecidableEq, Repr

/-- Go's `isLeap(year)`. -/
def isLeap (year : Nat) : Bool :=
  year % 4 = 0 && (year % 100 ≠ 0 || year % 400 = 0)

/-- Go's `daysIn(m, year)`: the number of days of month `m` of year `year`. -/
def daysIn (m year : Nat) : Nat :=
  if m = 2 then (if isLeap year then 29 else 28)
  else if m = 4 ∨ m = 6 ∨ m = 9 ∨ m = 11 then 30
  else 31

/-- A date of the calendar: the month is 1..12 and the day exists in it. -/
def Date.valid (d : Date) : Prop :=
  1 ≤ d.month ∧ d.month ≤ 12 ∧ 1 ≤ d.day ∧ d.day ≤ daysIn d.month d.year

instance (d : Date) : Decidable d.valid := by
  unfold Date.valid
  exact inferInstance

/-- Go's `isDigit`: the byte is one of '0'..'9'. -/
def isDigit (c : Char) : Bool := decide (48 ≤ c.toNat) && decide (c.toNat ≤ 57)

/-- The value of a decimal digit. -/
def digitVal (c : Char) : Nat := c.toNat - 48

/-- The character of a decimal digit. -/
def digitChar (n : Nat) : Char := Char.ofNat (48 + n)

/-- Go's `getnum(s, true)` on the two leading bytes of the value: exactly two
digits. -/
def getnum2 (a b : Char) : Option Nat :=
  if isDigit a && isDigit b then some (digitVal a * 10 + digitVal b) else none

/-- The element `2006` of a layout on the four leading bytes of the value:
exactly four digits (`atoi` of the four bytes). -/
def getyear (a b c d : Char) : Option Nat :=
  if isDigit a && isDigit b && isDigit c && isDigit d then
    some (digitVal a * 1000 + digitVal b * 100 + digitVal c * 10 + digitVal d)
  else none

/-- The range checks of `time.Parse` on the parsed fields: the month is 1..12,
and the day is 1..`daysIn`. -/
def checkDate (year month day : Nat) : Option Date :=
  if month < 1 ∨ 12 < month then none
  else if day < 1 ∨ daysIn month year < day then none
  else some ⟨year, month, day⟩

/-- Model of `time.Parse("2006-01-02", value)` of the Go library: `some t` for a
nil error. The value is four digits, '-', two digits, '-', two digits, and
nothing else. (A string is taken as its characters; a character outside ASCII
is neither a digit nor '-', as are the bytes that encode it.) -/
def parseHyphenated (value : String) : Option Date :=
  match value.toList with
  | [y1, y2, y3, y4, h1, m1, m2, h2, d1, d2] =>
    match getyear y1 y2 y3 y4, getnum2 m1 m2, getnum2 d1 d2 with
    | some y, some m, some d => if h1 = '-' ∧ h2 = '-' then checkDate y m d else none
    | _, _, _ => none
  | _ => none

/-- Model of `time.Parse("20060102", value)` of the Go library: the value is
eight digits and nothing else. -/
def parseCompact (value : String) : Option Date :=
  match value.toList with
  | [y1, y2, y3, y4, m1, m2, d1, d2] =>
    match getyear y1 y2 y3 y4, getnum2 m1 m2, getnum2 d1 d2 with
    | some y, some m, some d => checkDate y m d
    | _, _, _ => none
  | _ => none

/-- Go's `appendInt(b, x, width)` for a non-negative `x`: the decimal digits of
`x`, padded with zeros on the left to `width` characters. -/
def appendInt (x width : Nat) : List Char :=
  if width = 2 ∧ x < 100 then [digitChar (x / 10), digitChar (x % 10)]
  else if width = 4 ∧ x < 10000 then
    [digitChar (x / 1000), digitChar (x / 100 % 10), digitChar (x / 10 % 10), digitChar (x % 10)]
  else List.replicate (width - (Nat.toDigits 10 x).length) '0' ++ Nat.toDigits 10 x

/-- Model of `t.Format("20060102")`: year, month and day with `appendInt` of
widths 4, 2 and 2. -/
def formatCompact (t : Date) : String :=
  String.mk (appendInt t.year 4 ++ appendInt t.month 2 ++ appendInt t.day 2)

/-- The hyphenated way to write a date: `YYYY-MM-DD`. -/
def formatHyphenated (t : Date) : String :=
  String.mk (appendInt t.year 4 ++ '-' :: appendInt t.month 2 ++ '-' :: appendInt t.day 2)

/-- Model of `t.AddDate(0, 0, -1)` on the date of `t`: the day before. -/
def prevDay (t : Date) : Date :=
  if 1 < t.day then ⟨t.year, t.month, t.day - 1⟩
  else if 1 < t.month then ⟨t.year, t.month - 1, daysIn (t.month - 1) t.year⟩
  else ⟨t.year - 1, 12, 31⟩

/-- Embedding of `getNightlyTag(date string) (dateStr, tag string)`; `now` is
the date of `time.Now()`. -/
def getNightlyTag (now : Date) (date : String) : String × String :=
  if date = "latest" then
    let dateStr := formatCompact (prevDay now)
    (dateStr, "nightly-" ++ dateStr)
  else if date ≠ "" then
    -- try to parse the date from different layouts
    let parsed :=
      match parseHyphenated date with
      | some t => some t
      | none => parseCompact date
    match parsed with
    | some targetDate =>
      let dateStr := formatCompact targetDate
      (dateStr, "nightly-" ++ dateStr)
    | none => ("", "")
  else ("", "")


/-! ## The resolution rule of the specification -/

/-- A leap year of the Gregorian calendar, in words: a year that is a multiple
of 4, except the centuries that are not a multiple of 400. -/
def LeapYear (y : Nat) : Prop := (4 ∣ y ∧ ¬ 100 ∣ y) ∨ 400 ∣ y

instance : DecidablePred LeapYear := fun y => by
  unfold LeapYear
  exact inferInstance

/-- The lengths of the twelve months of a year, January first. -/
def monthLengths (y : Nat) : List Nat :=
  [31, if LeapYear y then 29 else 28, 31, 30, 31, 30, 31, 31, 30, 31, 30, 31]

/-- A date of the calendar: the month is one of the twelve, and the day is one
of the days of that month. -/
def IsCalendarDate (t : Date) : Prop :=
  1 ≤ t.month ∧ t.month ≤ 12 ∧ 1 ≤ t.day ∧ t.day ≤ (monthLengths t.year).getD (t.month - 1) 0

instance (t : Date) : Decidable (IsCalendarDate t) := by
  unfold IsCalendarDate
  exact inferInstance

/-- The number of days of a year. -/
def yearLength (y : Nat) : Nat := (monthLengths y).sum

/-- The number of a day in the count of days in which 1 January of year 0 is
day 1: the days of the years before, the days of the months before in its
year, and its day of the month. -/
def dayNumber (t : Date) : Nat :=
  ((List.range t.year).map yearLength).sum + ((monthLengths t.year).take (t.month - 1)).sum
    + t.day

/-- The date `y` is the day before the date `t`: a date of the calendar whose
number is one less. -/
def IsDayBefore (y t : Date) : Prop := IsCalendarDate y ∧ dayNumber y + 1 = dayNumber t

/-- The number a sequence of decimal digits denotes. -/
def decimalValue (cs : List Char) : Nat :=
  cs.foldl (fun n c => 10 * n + (c.toNat - 48)) 0

/-- The characters `cs` are the number `value` written with exactly `width`
decimal digits. -/
def IsNumeral (width value : Nat) (cs : List Char) : Prop :=
  cs.length = width ∧ (∀ c ∈ cs, 48 ≤ c.toNat ∧ c.toNat ≤ 57) ∧ decimalValue cs = value

/-- The string `s` is the date `t` in compact form, `YYYYMMDD`: four digits
for the year, two for the month and two for the day. -/
def IsCompact (t : Date) (s : String) : Prop :=
  ∃ a b c, s.toList = a ++ b ++ c ∧
    IsNumeral 4 t.year a ∧ IsNumeral 2 t.month b ∧ IsNumeral 2 t.day c

/-- The string `s` is the date `t` in hyphenated form, `YYYY-MM-DD`. -/
def IsHyphenated (t : Date) (s : String) : Prop :=
  ∃ a b c, s.toList = a ++ '-' :: b ++ '-' :: c ∧
    IsNumeral 4 t.year a ∧ IsNumeral 2 t.month b ∧ IsNumeral 2 t.day c

/-- The resolution rule of the specification, in its words and independent of
the code: for the sentinel "latest" the result is the compact form of the day
before the current date; for a date of the calendar written `YYYY-MM-DD` or
`YYYYMMDD` it is the compact form of that date; the tag is "nightly-" followed
by the compact form; for anything else both are empty. -/
def NightlyRule (now : Date) (date : String) (dateStr tag : String) : Prop :=
  (date = "latest" →
    ∃ y : Date, IsDayBefore y now ∧ IsCompact y dateStr ∧ tag = "nightly-" ++ dateStr) ∧
  (date ≠ "latest" →
    (∀ t : Date, IsCalendarDate t → (IsHyphenated t date ∨ IsCompact t date) →
      IsCompact t dateStr ∧ tag = "nightly-" ++ dateStr) ∧
    ((¬ ∃ t : Date, IsCalendarDate t ∧ (IsHyphenated t date ∨ IsCompact t date)) →
      dateStr = "" ∧ tag = ""))

/-! ## Commands, jobs and wait groups -/

/-- What the program does that can be seen from outside, in the order in which
it happens: `exec c err` is a call of `execCommand` with command line `c` that
returned `err`; `add image` is the `wg.Add(1)` and the `go` statement of
`pullAndLoadImageSync(image, &wg)`; `done image` is the `wgInner.Done()` of the
goroutine of that image; `wait` is the return of `wg.Wait()`. -/
inductive Event where
  | writeConfigFile (filename : String) (portMappings : List (String × String))
  | exec (c : Cmd) (err : Option GoError)
  | add (image : String)
  | done (image : String)
  | wait
  | println (text : String)
  deriving DecidableEq, Repr

/-- The surroundings of the program: the behaviour of the process a command line
starts, which may depend on everything that happened before; the two sinks
`os.Stdout` and `os.Stderr`; and the date of `time.Now()`. The pipeline is
followed over the commands that have an outcome: `returns` says that every call
of `execCommand` returns. -/
structure World where
  proc : List Event → Cmd → Proc
  osStdout : Sink
  osStderr : Sink
  now : Date
  returns : ∀ (log : List Event) (c : Cmd),
    (execCommand (proc log c) osStdout osStderr).isSome = true

/-- The error `execCommand` returns for command line `c` after the events
`log`. -/
def cmdErr (w : World) (log : List Event) (c : Cmd) : Option GoError :=
  ((execCommand (w.proc log c) w.osStdout w.osStderr).get (w.returns log c)).err

/-- A call `execCommand(c.name, c.args...)` in the pipeline: the error returned
and the events so far. (The bytes relayed to the sinks are not followed at
this level.) -/
def execCommandAt (w : World) (log : List Event) (c : Cmd) : Option GoError × List Event :=
  (cmdErr w log c, log ++ [Event.exec c (cmdErr w log c)])

/-- The command line of the fetch step: `docker pull <image>`. -/
def pullCmd (image : String) : Cmd := ⟨"docker", ["pull", image]⟩

/-- The command line of the stage step: `kind load docker-image <image>`. -/
def loadCmd (image : String) : Cmd := ⟨"kind", ["load", "docker-image", image]⟩

/-- Embedding of `pullAndLoadImage(image string) (err error)`. -/
def pullAndLoadImage (w : World) (log : List Event) (image : String) :
    Option GoError × List Event :=
  match execCommandAt w log (pullCmd image) with
  | (none, log1) => execCommandAt w log1 (loadCmd image)
  | (some err, log1) => (some err, log1)

/-- Where the goroutine of `pullAndLoadImageSync` stands: before
`docker pull`, before `kind load` (the pull succeeded), before `wgInner.Done()`,
or at its end. -/
inductive JobPc where
  | pull
  | load
  | done
  | finished
  deriving DecidableEq, Repr

/-- A goroutine started by `pullAndLoadImageSync`. -/
structure Job where
  image : String
  pc : JobPc
  deriving DecidableEq, Repr

/-- The state of a function that launches one job per image with
`pullAndLoadImageSync` and then calls `wg.Wait()` (`loadCoreImageOfKS`,
`loadImagesOfDevOps`, and the middle of `reset`): the images of its calls in
order, the number of calls made, the goroutines started, the counter of the
wait group, whether the function is past `wg.Wait()` or has returned, its `err`,
and the events so far. -/
structure Batch where
  images : List String
  launched : Nat
  jobs : List Job
  wg : Int
  returned : Bool
  err : Option GoError
  log : List Event

/-- The state of a batch at its start. -/
def Batch.init (images : List String) (log : List Event) : Batch :=
  { images := images, launched := 0, jobs := [], wg := 0, returned := false, err := none,
    log := log }

/-- Embedding of `pullAndLoadImageSync(image string, wg *sync.WaitGroup) (err error)`:
`wg.Add(1)`, start the goroutine, return nil. -/
def pullAndLoadImageSync (image : String) (b : Batch) : Option GoError × Batch :=
  (none, { b with wg := b.wg + 1, jobs := b.jobs ++ [⟨image, JobPc.pull⟩],
                  log := b.log ++ [Event.add image] })

/-- One step of the function that owns the batch: the next statement
`if err = pullAndLoadImageSync(image, &wg); err != nil { return }`, or, after the
last one, `wg.Wait()`, which can only return when the counter is zero. `none`:
the function cannot move (it is blocked in `wg.Wait()`, or it is done). -/
def stepMain (b : Batch) : Option Batch :=
  if b.returned then none
  else
    match b.images[b.launched]? with
    | some image =>
      match pullAndLoadImageSync image b with
      | (some err, b1) => some { b1 with launched := b.launched + 1, returned := true, err := some err }
      | (none, b1) => some { b1 with launched := b.launched + 1 }
    | none =>
      if b.wg = 0 then some { b with returned := true, log := b.log ++ [Event.wait] }
      else none

/-- One step of goroutine `i` of the batch, the body
`_ = pullAndLoadImage(imageName); wgInner.Done()`: the pull, the load if the pull
returned nil, then `Done`. `none`: the goroutine does not exist or is at its
end. -/
def stepJob (w : World) (i : Nat) (b : Batch) : Option Batch :=
  match b.jobs[i]? with
  | some ⟨image, JobPc.pull⟩ =>
    let err := cmdErr w b.log (pullCmd image)
    some { b with
      jobs := b.jobs.set i ⟨image, if err = none then JobPc.load else JobPc.done⟩,
      log := b.log ++ [Event.exec (pullCmd image) err] }
  | some ⟨image, JobPc.load⟩ =>
    let err := cmdErr w b.log (loadCmd image)
    some { b with
      jobs := b.jobs.set i ⟨image, JobPc.done⟩,
      log := b.log ++ [Event.exec (loadCmd image) err] }
  | some ⟨image, JobPc.done⟩ =>
    some { b with
      jobs := b.jobs.set i ⟨image, JobPc.finished⟩,
      wg := b.wg - 1,
      log := b.log ++ [Event.done image] }
  | _ => none

/-- One step of thread `tid`: thread 0 is the function that owns the batch,
thread `i + 1` is goroutine `i`. -/
def step (w : World) (tid : Nat) (b : Batch) : Option Batch :=
  match tid with
  | 0 => stepMain b
  | i + 1 => stepJob w i b

/-- Run the threads in the order the schedule gives; a thread that cannot move
when its turn comes is passed over. -/
def runSched (w : World) : List Nat → Batch → Batch
  | [], b => b
  | tid :: rest, b => runSched w rest ((step w tid b).getD b)

/-- The first thread that can move, moved by one step. -/
def stepAny (w : World) (b : Batch) : Option Batch :=
  (List.range (b.images.length + 1)).findSome? (fun tid => step w tid b)

/-- Let the threads run on, lowest thread first, for at most `fuel` steps or
until none can move. -/
def drain (w : World) : Nat → Batch → Batch
  | 0, b => b
  | fuel + 1, b =>
    match stepAny w b with
    | some b1 => drain w fuel b1
    | none => b

/-- A whole run of a batch over `images`: the threads interleave as the
schedule `sched` says, and when the schedule is used up they run on until none
can move. Every interleaving of the threads is the run of some schedule. -/
def runBatch (w : World) (images : List String) (sched : List Nat) (log : List Event) : Batch :=
  drain w (4 * images.length + 1) (runSched w sched (Batch.init images log))

/-- The images of `loadCoreImageOfKS`, in the order of its calls. -/
def coreImages : List String :=
  ["kubesphere/ks-installer:v3.0.0", "kubesphere/ks-apiserver:v3.0.0",
   "kubesphere/ks-controller-manager:v3.0.0", "kubesphere/ks-console:v3.0.0",
   "redis:5.0.5-alpine", "osixia/openldap:1.3.0",
   "minio/minio:RELEASE.2019-08-07T01-59-21Z", "mysql:8.0.11"]

/-- The images of `loadImagesOfDevOps`, in the order of its calls. -/
def devOpsImages : List String :=
  ["kubesphere/jenkins-uc:v3.0.0", "jenkins/jenkins:2.176.2", "jenkins/jnlp-slave:3.27-1",
   "kubesphere/builder-base:v2.1.0", "kubesphere/builder-nodejs:v2.1.0",
   "kubesphere/builder-go:v2.1.0", "kubesphere/builder-maven:v2.1.0"]

/-- The images of `reset` for tag `tag`, in the order of its calls. -/
def nightlyImages (tag : String) : List String :=
  ["kubespheredev/ks-installer:" ++ tag, "kubespheredev/ks-apiserver:" ++ tag,
   "kubespheredev/ks-controller-manager:" ++ tag, "kubespheredev/ks-console:" ++ tag]

/-- Embedding of `loadCoreImageOfKS() (err error)` under schedule `sched`. -/
def loadCoreImageOfKS (w : World) (sched : List Nat) (log : List Event) :
    Option GoError × List Event :=
  ((runBatch w coreImages sched log).err, (runBatch w coreImages sched log).log)

/-- Embedding of `loadImagesOfDevOps() (err error)` under schedule `sched`. -/
def loadImagesOfDevOps (w : World) (sched : List Nat) (log : List Event) :
    Option GoError × List Event :=
  ((runBatch w devOpsImages sched log).err, (runBatch w devOpsImages sched log).log)

/-! ## The bring-up pipeline -/

/-- Embedding of `kindOption`. -/
structure kindOption where
  name : String
  version : String
  portMappings : List (String × String)
  ksVersion : String
  components : List String
  Reset : Bool
  Nightly : String
  deriving DecidableEq, Repr

/-- What a method of `kindOption` leaves behind: the returned error, the option
set (the receiver is a pointer), and the events so far. -/
structure RunResult where
  err : Option GoError
  opt : kindOption
  log : List Event

/-- The command line of the external reset subcommand for the value `nightly`
of its `--nightly` argument. -/
def resetCmd (nightly : String) : Cmd :=
  ⟨"kubectl", ["ks", "com", "reset", "--nightly", nightly, "-a"]⟩

/-- Embedding of `(o *kindOption) reset(cmd, args) (err error)` under schedule
`sched`. -/
def reset (w : World) (o : kindOption) (sched : List Nat) (log : List Event) : RunResult :=
  let o1 := { o with Nightly := (getNightlyTag w.now o.Nightly).1 }
  let tag := (getNightlyTag w.now o.Nightly).2
  if tag = "" then ⟨none, o1, log⟩
  else
    let b := runBatch w (nightlyImages tag) sched log
    match b.err with
    | some err => ⟨some err, o1, b.log⟩
    | none =>
      match execCommandAt w b.log (resetCmd o1.Nightly) with
      | (err, log1) => ⟨err, o1, log1⟩

/-- The command line of the cluster creation. -/
def createClusterCmd (o : kindOption) : Cmd :=
  ⟨"kind", ["create", "cluster", "--image", "kindest/node:v1.18.2", "--config", "config.yaml",
    "--name", o.name]⟩

/-- The command line of the reachability check. -/
def clusterInfoCmd (o : kindOption) : Cmd :=
  ⟨"kubectl", ["cluster-info", " --context", "kind-" ++ o.name]⟩

/-- The URL of the installer manifest for a version. -/
def installerURL (ksVersion : String) : String :=
  "https://github.com/kubesphere/ks-installer/releases/download/" ++ ksVersion
    ++ "/kubesphere-installer.yaml"

/-- The URL of the cluster-configuration manifest for a version. -/
def clusterConfigurationURL (ksVersion : String) : String :=
  "https://github.com/kubesphere/ks-installer/releases/download/" ++ ksVersion
    ++ "/cluster-configuration.yaml"

/-- The command line that applies a manifest. -/
def applyCmd (url : String) : Cmd := ⟨"kubectl", ["apply", "-f", url]⟩

/-- The line `runE` prints after the manifests. -/
def patchHint : String :=
  "kubectl -n kubesphere-system patch deploy ks-installer --type=json -p=\x27[\x7b\"op\":\"replace\",\"path\":\"/spec/template/spec/containers/0/imagePullPolicy\",\"value\":\"IfNotPresent\"\x7d]\x27"

/-- The loop `for _, com := range o.components` of `runE`: every "devops" runs
`loadImagesOfDevOps` with the next schedule and assigns its result to `err`. -/
def loadComponents (w : World) :
    List String → Option GoError → List (List Nat) → List Event →
      Option GoError × List (List Nat) × List Event
  | [], err, scheds, log => (err, scheds, log)
  | com :: rest, err, scheds, log =>
    if com = "devops" then
      match loadImagesOfDevOps w (scheds.headD []) log with
      | (err1, log1) => loadComponents w rest err1 scheds.tail log1
    else loadComponents w rest err scheds log

/-- Embedding of `(o *kindOption) runE(cmd, args) (err error)`. The batches take
their schedules from `scheds` in the order in which they run. -/
def runE (w : World) (o : kindOption) (scheds : List (List Nat)) (log : List Event) :
    RunResult :=
  let log0 := log ++ [Event.writeConfigFile "config.yaml" o.portMappings]
  match execCommandAt w log0 (createClusterCmd o) with
  | (some err, log1) => ⟨some err, o, log1⟩
  | (none, log1) =>
    match execCommandAt w log1 (clusterInfoCmd o) with
    | (some err, log2) => ⟨some err, o, log2⟩
    | (none, log2) =>
      match loadCoreImageOfKS w (scheds.headD []) log2 with
      | (some err, log3) => ⟨some err, o, log3⟩
      | (none, log3) =>
        match execCommandAt w log3 (applyCmd (installerURL o.ksVersion)) with
        | (some err, log4) => ⟨some err, o, log4⟩
        | (none, log4) =>
          match execCommandAt w log4 (applyCmd (clusterConfigurationURL o.ksVersion)) with
          | (some err, log5) => ⟨some err, o, log5⟩
          | (none, log5) =>
            match loadComponents w o.components none scheds.tail
                (log5 ++ [Event.println patchHint]) with
            | (err6, scheds6, log6) =>
              if o.Reset then reset w o (scheds6.headD []) log6
              else ⟨err6, o, log6⟩

/-! ## Observations on event logs -/

/-- The images of the `add` events of a log, in order. -/
def adds (log : List Event) : List String :=
  log.filterMap (fun e => match e with | Event.add image => some image | _ => none)

/-- The images of the `done` events of a log, in order. -/
def dones (log : List Event) : List String :=
  log.filterMap (fun e => match e with | Event.done image => some image | _ => none)

/-- The command lines of the `exec` events of a log, in order. -/
def execs (log : List Event) : List Cmd :=
  log.filterMap (fun e => match e with | Event.exec c _ => some c | _ => none)

/-- The value of the counter of the wait group after each event of a log that
changes it, starting from `n`. -/
def wgTrace : Int → List Event → List Int
  | _, [] => []
  | n, Event.add _ :: rest => (n + 1) :: wgTrace (n + 1) rest
  | n, Event.done _ :: rest => (n - 1) :: wgTrace (n - 1) rest
  | n, _ :: rest => wgTrace n rest

/-- A world all of whose commands start, print nothing and exit cleanly. -/
def World.quiet : World :=
  { proc := fun _ _ =>
      ⟨none, ⟨[], [], GoError.EOF⟩, ⟨[], [], GoError.EOF⟩, none, pipeBlocks 65536⟩,
    osStdout := Sink.ok, osStderr := Sink.ok, now := ⟨2020, 1, 3⟩,
    returns := fun _ _ => rfl }

/-! ## Invariant and measure of a batch -/

/-- The number of goroutines that have not reached their end. -/
def unfinished (jobs : List Job) : Nat :=
  (jobs.filter (fun j => decide (j.pc ≠ JobPc.finished))).length

/-- The images of the goroutines that have reached their end. -/
def finishedImages (jobs : List Job) : List String :=
  (jobs.filter (fun j => decide (j.pc = JobPc.finished))).map Job.image

/-- The number of steps a goroutine still has to make, at most. -/
def JobPc.remaining : JobPc → Nat
  | JobPc.pull => 3
  | JobPc.load => 2
  | JobPc.done => 1
  | JobPc.finished => 0

/-- A bound on the number of steps the threads of a batch can still make. -/
def Batch.measure (b : Batch) : Nat :=
  (if b.returned then 0 else 1) + 4 * (b.images.length - b.launched)
    + (b.jobs.map (fun j => j.pc.remaining)).sum

/-- What holds of a batch over `images` started after the events `log0`, at
every point of every run. -/
structure BatchInv (images : List String) (log0 : List Event) (b : Batch) : Prop where
  himages : b.images = images
  hlaunched : b.launched = b.jobs.length
  hle : b.launched ≤ images.length
  hjobs : b.jobs.map Job.image = images.take b.launched
  hwg : b.wg = (unfinished b.jobs : Int)
  herr : b.err = none
  hlog : ∃ body, b.log = log0 ++ body ++ (if b.returned then [Event.wait] else []) ∧
    Event.wait ∉ body ∧ adds body = images.take b.launched ∧
    (dones body).Perm (finishedImages b.jobs) ∧
    ∀ c ∈ execs body, ∃ image ∈ images, c = pullCmd image ∨ c = loadCmd image
  hret : b.returned = true → b.launched = images.length ∧ unfinished b.jobs = 0

/-- A world in which the command lines `bad` picks fail to start with error
`e`, and all the other commands start, print nothing and exit cleanly. -/
def World.failingOn (bad : Cmd → Bool) (e : GoError) : World :=
  { proc := fun _ c =>
      if bad c then
        ⟨some e, ⟨[], [], GoError.EOF⟩, ⟨[], [], GoError.EOF⟩, none, pipeBlocks 65536⟩
      else ⟨none, ⟨[], [], GoError.EOF⟩, ⟨[], [], GoError.EOF⟩, none, pipeBlocks 65536⟩,
    osStdout := Sink.ok, osStderr := Sink.ok, now := ⟨2020, 1, 3⟩,
    returns := fun _ c => by
      cases h : bad c
      · simp only [h]
        rfl
      · simp only [h]
        rfl }

/-- An option set for the examples. -/
def kindOption.example : kindOption :=
  { name := "kind", version := "v1.18.2", portMappings := [("80", "8080")],
    ksVersion := "v3.0.0", components := [], Reset := true, Nightly := "20200102" }

/-! # Theorems -/

/-! ## The stream relay -/

theorem write_ok (w : Sink) (d : List Byte) (h : w.fault w.calls = none) :
    w.write d = ({ w with written := w.written ++ d, calls := w.calls + 1 }, none) := by
  simp [Sink.write, h]

theorem write_fail (w : Sink) (d : List Byte) (f : WriteFault) (h : w.fault w.calls = some f) :
    w.write d =
      ({ w with written := w.written ++ d.take f.accepted, calls := w.calls + 1 }, some f.err) := by
  simp [Sink.write, h]

theorem writesFor_cons_pos (d : List Byte) (l : List (List Byte)) (h : 0 < d.length) :
    writesFor (d :: l) = writesFor l + 1 := by
  simp [writesFor, List.filter_cons, h]

theorem writesFor_cons_zero (d : List Byte) (l : List (List Byte)) (h : ¬ 0 < d.length) :
    writesFor (d :: l) = writesFor l := by
  simp [writesFor, List.filter_cons, h]

/-- When none of the writes the loop makes fails, the loop reads to the last
`Read`, writes every byte, and returns the filtered error of the last read. -/
theorem copyLoop_ok (ld : List Byte) (le : GoError) (chunks : List (List Byte)) :
    ∀ (w : Sink) (out : List Byte) (k : Nat),
      (∀ j, j < writesFor (chunks ++ [ld]) → w.fault (w.calls + j) = none) →
      (copyLoop ld le chunks w out k).out = out ++ (chunks.flatten ++ ld) ∧
      (copyLoop ld le chunks w out k).err = filterEOF le ∧
      (copyLoop ld le chunks w out k).sink.written = w.written ++ (chunks.flatten ++ ld) ∧
      (copyLoop ld le chunks w out k).reads = k + chunks.length + 1 := by
  induction chunks with
  | nil =>
    intro w out k h
    by_cases hl : 0 < ld.length
    · have h0 : w.fault w.calls = none := by
        have := h 0 (by simp [writesFor, hl])
        simpa using this
      simp [copyLoop, hl, write_ok w ld h0]
    · have : ld = [] := by
        cases ld with
        | nil => rfl
        | cons a t => simp at hl
      subst this
      simp [copyLoop]
  | cons d rest ih =>
    intro w out k h
    by_cases hl : 0 < d.length
    · have hw : writesFor ((d :: rest) ++ [ld]) = writesFor (rest ++ [ld]) + 1 := by
        simpa using writesFor_cons_pos d (rest ++ [ld]) hl
      have h0 : w.fault w.calls = none := by
        have := h 0 (by omega)
        simpa using this
      have hrest : ∀ j, j < writesFor (rest ++ [ld]) →
          ({ w with written := w.written ++ d, calls := w.calls + 1 } : Sink).fault
            (({ w with written := w.written ++ d, calls := w.calls + 1 } : Sink).calls + j)
            = none := by
        intro j hj
        have := h (j + 1) (by omega)
        simpa [Nat.add_assoc, Nat.add_comm 1 j] using this
      have := ih _ (out ++ d) (k + 1) hrest
      simp only [copyLoop, hl, if_true, write_ok w d h0]
      obtain ⟨a, b, c, e⟩ := this
      refine ⟨?_, b, ?_, ?_⟩
      · simp [a, List.append_assoc]
      · simp [c, List.append_assoc]
      · simp [e]; omega
    · have hd : d = [] := by
        cases d with
        | nil => rfl
        | cons a t => simp at hl
      have hw : writesFor ((d :: rest) ++ [ld]) = writesFor (rest ++ [ld]) := by
        simpa using writesFor_cons_zero d (rest ++ [ld]) hl
      have := ih w out (k + 1) (by intro j hj; exact h j (by omega))
      simp only [copyLoop, hl, if_false]
      obtain ⟨a, b, c, e⟩ := this
      subst hd
      refine ⟨?_, b, ?_, ?_⟩
      · simp [a]
      · simp [c]
      · simp [e]; omega

/-- When the first write that fails is the one for slice `d`, the loop stops
there: it returns the error of that write, has issued no read beyond the one
that delivered `d`, and the sink holds the earlier slices and the accepted part
of `d`. -/
theorem copyLoop_writeFail (ld : List Byte) (le : GoError) (d : List Byte)
    (post : List (List Byte)) (f : WriteFault) (hd : d ≠ []) :
    ∀ (pre chunks : List (List Byte)) (w : Sink) (out : List Byte) (k : Nat),
      chunks ++ [ld] = pre ++ d :: post →
      (∀ j, j < writesFor pre → w.fault (w.calls + j) = none) →
      w.fault (w.calls + writesFor pre) = some f →
      (copyLoop ld le chunks w out k).err = some f.err ∧
      (copyLoop ld le chunks w out k).reads = k + pre.length + 1 ∧
      (copyLoop ld le chunks w out k).sink.written =
        w.written ++ (pre.flatten ++ d.take f.accepted) ∧
      (copyLoop ld le chunks w out k).out = out ++ (pre.flatten ++ d) := by
  have hdl : 0 < d.length := List.length_pos.mpr hd
  intro pre
  induction pre with
  | nil =>
    intro chunks w out k hs _ hf
    have hf0 : w.fault w.calls = some f := by simpa [writesFor] using hf
    cases chunks with
    | nil =>
      simp at hs
      obtain ⟨h1, _⟩ := hs
      subst h1
      simp [copyLoop, hdl, write_fail w ld f hf0]
    | cons c cs =>
      simp at hs
      obtain ⟨h1, _⟩ := hs
      subst h1
      simp [copyLoop, hdl, write_fail w c f hf0]
  | cons p pre ih =>
    intro chunks w out k hs hb hf
    cases chunks with
    | nil =>
      simp at hs
    | cons c cs =>
      simp at hs
      obtain ⟨h1, h2⟩ := hs
      subst h1
      by_cases hl : 0 < c.length
      · have hw : writesFor (c :: pre) = writesFor pre + 1 := writesFor_cons_pos c pre hl
        have h0 : w.fault w.calls = none := by
          have := hb 0 (by omega)
          simpa using this
        have hb1 : ∀ j, j < writesFor pre →
            ({ w with written := w.written ++ c, calls := w.calls + 1 } : Sink).fault
              (({ w with written := w.written ++ c, calls := w.calls + 1 } : Sink).calls + j)
              = none := by
          intro j hj
          have := hb (j + 1) (by omega)
          simpa [Nat.add_assoc, Nat.add_comm 1 j] using this
        have hf1 : ({ w with written := w.written ++ c, calls := w.calls + 1 } : Sink).fault
              (({ w with written := w.written ++ c, calls := w.calls + 1 } : Sink).calls
                + writesFor pre) = some f := by
          rw [hw] at hf
          simpa [Nat.add_assoc, Nat.add_comm 1 (writesFor pre)] using hf
        have := ih cs _ (out ++ c) (k + 1) (by simpa using h2) hb1 hf1
        simp only [copyLoop, hl, if_true, write_ok w c h0]
        obtain ⟨a, b, e, g⟩ := this
        refine ⟨a, ?_, ?_, ?_⟩
        · simp [b]; omega
        · simp [e, List.append_assoc]
        · simp [g, List.append_assoc]
      · have hc : c = [] := by
          cases c with
          | nil => rfl
          | cons a t => simp at hl
        have hw : writesFor (c :: pre) = writesFor pre := writesFor_cons_zero c pre hl
        have := ih cs w out (k + 1) (by simpa using h2)
          (by intro j hj; exact hb j (by omega)) (by rw [hw] at hf; exact hf)
        simp only [copyLoop, hl, if_false]
        obtain ⟨a, b, e, g⟩ := this
        subst hc
        refine ⟨a, ?_, ?_, ?_⟩
        · simp [b]; omega
        · simp [e]
        · simp [g]

/-- The bytes of the slices before a split point, followed by a part of the
slice at the split point, are a prefix of all the bytes of the reader. -/
theorem prefix_of_split (r : Reader) (pre post : List (List Byte)) (d : List Byte) (n : Nat)
    (hs : r.chunks ++ [r.lastData] = pre ++ d :: post) :
    (pre.flatten ++ d.take n) <+: r.bytes := by
  have hb : r.bytes = (r.chunks ++ [r.lastData]).flatten := by
    simp [Reader.bytes]
  rw [hb, hs]
  simp only [List.flatten_append, List.flatten_cons]
  refine (List.prefix_append_right_inj _).mpr ?_
  exact List.IsPrefix.trans (List.take_prefix n d) (List.prefix_append _ _)

/-- C1: for every reader that ends with end-of-stream, however it splits its
bytes into `Read` results, and every sink whose writes all succeed,
`copyAndCapture` returns a nil error after reading to the end, the sink receives
exactly the bytes of the reader, once and in order, after what it held, and a
second reader with the same bytes split differently leaves the same bytes in the
sink. -/
theorem copyAndCapture_forwards_all (w : Sink) (r r2 : Reader)
    (hw : w.allSucceed) (heof : r.lastErr = GoError.EOF)
    (heof2 : r2.lastErr = GoError.EOF) (hsame : r2.bytes = r.bytes) :
    (copyAndCapture w r).err = none ∧
    (copyAndCapture w r).sink.written = w.written ++ r.bytes ∧
    (copyAndCapture w r).out = r.bytes ∧
    (copyAndCapture w r).reads = r.chunks.length + 1 ∧
    (copyAndCapture w r2).sink.written = (copyAndCapture w r).sink.written ∧
    (copyAndCapture w r2).err = none := by
  have h1 := copyLoop_ok r.lastData r.lastErr r.chunks w [] 0 (fun j _ => hw _)
  have h2 := copyLoop_ok r2.lastData r2.lastErr r2.chunks w [] 0 (fun j _ => hw _)
  obtain ⟨a1, b1, c1, d1⟩ := h1
  obtain ⟨_, b2, c2, _⟩ := h2
  refine ⟨?_, ?_, ?_, ?_, ?_, ?_⟩
  · show (copyLoop r.lastData r.lastErr r.chunks w [] 0).err = none
    rw [b1, heof]
    rfl
  · simpa [copyAndCapture, Reader.bytes] using c1
  · simpa [copyAndCapture, Reader.bytes] using a1
  · simpa [copyAndCapture] using d1
  · have e1 : (copyAndCapture w r).sink.written = w.written ++ r.bytes := by
      simpa [copyAndCapture, Reader.bytes] using c1
    have e2 : (copyAndCapture w r2).sink.written = w.written ++ r2.bytes := by
      simpa [copyAndCapture, Reader.bytes] using c2
    rw [e1, e2, hsame]
  · show (copyLoop r2.lastData r2.lastErr r2.chunks w [] 0).err = none
    rw [b2, heof2]
    rfl

/-- Witness of C1: the bytes 1,2,3,4 delivered as [1,2], [3], then [4] with
end-of-stream, and as [1], [2,3,4], then end-of-stream alone. -/
theorem copyAndCapture_forwards_all_witness :
    (copyAndCapture Sink.ok ⟨[[1, 2], [3]], [4], GoError.EOF⟩).err = none ∧
    (copyAndCapture Sink.ok ⟨[[1, 2], [3]], [4], GoError.EOF⟩).sink.written
      = Sink.ok.written ++ [1, 2, 3, 4] ∧
    (copyAndCapture Sink.ok ⟨[[1, 2], [3]], [4], GoError.EOF⟩).out = [1, 2, 3, 4] ∧
    (copyAndCapture Sink.ok ⟨[[1, 2], [3]], [4], GoError.EOF⟩).reads = 3 ∧
    (copyAndCapture Sink.ok ⟨[[1], [2, 3, 4]], [], GoError.EOF⟩).sink.written
      = (copyAndCapture Sink.ok ⟨[[1, 2], [3]], [4], GoError.EOF⟩).sink.written ∧
    (copyAndCapture Sink.ok ⟨[[1], [2, 3, 4]], [], GoError.EOF⟩).err = none :=
  copyAndCapture_forwards_all Sink.ok ⟨[[1, 2], [3]], [4], GoError.EOF⟩
    ⟨[[1], [2, 3, 4]], [], GoError.EOF⟩ (fun _ => rfl) rfl rfl rfl

/-- C7 (as amended): at the first failing operation, in the order in which the
loop examines outcomes (the bytes of a `Read` are written before the error of
that `Read` is looked at), `copyAndCapture` returns the error of that operation,
the failing iteration's `Read` is the last one issued, and the sink holds, after
what it held, the slices read before and the part of the failing iteration that
was accepted, which is a prefix of the bytes of the reader. -/
theorem copyAndCapture_stops_at_first_failure (w : Sink) (r : Reader)
    (pre : List (List Byte)) (p : List Byte) (e : GoError)
    (h : FirstFailure w r pre p e) :
    (copyAndCapture w r).err = some e ∧
    (copyAndCapture w r).reads = pre.length + 1 ∧
    (copyAndCapture w r).sink.written = w.written ++ (pre.flatten ++ p) ∧
    (pre.flatten ++ p) <+: r.bytes := by
  cases h with
  | write _ d post f hsplit hd hbefore hfail =>
    have := copyLoop_writeFail r.lastData r.lastErr d post f hd pre r.chunks w [] 0
      hsplit hbefore hfail
    obtain ⟨a, b, c, _⟩ := this
    refine ⟨by simpa [copyAndCapture] using a, by simpa [copyAndCapture] using b,
      by simpa [copyAndCapture] using c, prefix_of_split r pre post d f.accepted hsplit⟩
  | read hwrites herr =>
    have := copyLoop_ok r.lastData r.lastErr r.chunks w [] 0 hwrites
    obtain ⟨_, b, c, d⟩ := this
    refine ⟨?_, by simpa [copyAndCapture] using d, by simpa [copyAndCapture] using c, ?_⟩
    · simp [copyAndCapture, b, filterEOF, herr]
    · simp [Reader.bytes]

/-- Witness of C7: the second write fails after accepting one byte of [3,4]. -/
theorem copyAndCapture_stops_at_first_failure_witness :
    (copyAndCapture (Sink.failingAt 1 ⟨1, GoError.other 9⟩)
        ⟨[[1, 2], [3, 4], [5]], [6], GoError.EOF⟩).err = some (GoError.other 9) ∧
    (copyAndCapture (Sink.failingAt 1 ⟨1, GoError.other 9⟩)
        ⟨[[1, 2], [3, 4], [5]], [6], GoError.EOF⟩).reads = [[1, 2]].length + 1 ∧
    (copyAndCapture (Sink.failingAt 1 ⟨1, GoError.other 9⟩)
        ⟨[[1, 2], [3, 4], [5]], [6], GoError.EOF⟩).sink.written
      = (Sink.failingAt 1 ⟨1, GoError.other 9⟩).written
          ++ ([[1, 2]].flatten ++ [3, 4].take 1) ∧
    ([[1, 2]].flatten ++ [3, 4].take 1)
      <+: (⟨[[1, 2], [3, 4], [5]], [6], GoError.EOF⟩ : Reader).bytes :=
  copyAndCapture_stops_at_first_failure (Sink.failingAt 1 ⟨1, GoError.other 9⟩)
    ⟨[[1, 2], [3, 4], [5]], [6], GoError.EOF⟩ [[1, 2]] _ _
    (FirstFailure.write [[1, 2]] [3, 4] [[5], [6]] ⟨1, GoError.other 9⟩ rfl (by decide)
      (by intro j hj
          have hj0 : j = 0 := by
            have : writesFor [[1, 2]] = 1 := by decide
            omega
          subst hj0
          rfl)
      rfl)

/-- Counterexample to C7 as stated: a `Read` delivers one byte together with
error 7, and the write of that byte fails with error 9. The first I/O error
encountered is error 7, yet `copyAndCapture` returns error 9. -/
theorem copyAndCapture_write_error_hides_read_error :
    firstErrorEncountered (Sink.failingAt 0 ⟨0, GoError.other 9⟩)
        ⟨[], [1], GoError.other 7⟩ = some (GoError.other 7) ∧
    (copyAndCapture (Sink.failingAt 0 ⟨0, GoError.other 9⟩)
        ⟨[], [1], GoError.other 7⟩).err = some (GoError.other 9) := by
  constructor
  · rfl
  · rfl

/-! ## The command runner -/

/-- C6: when the process fails to start, `execCommand` returns, and what it
returns is the start error; it has called `copyAndCapture` zero times, started
no goroutine, not called `command.Wait()`, and left both sinks as they were. -/
theorem execCommand_start_failure (p : Proc) (osStdout osStderr : Sink) (e : GoError)
    (h : p.startErr = some e) :
    execCommand p osStdout osStderr
      = some { err := some e, relays := 0, goroutines := 0, waited := false,
               stdout := osStdout, stderr := osStderr } := by
  simp [execCommand, h]

/-- Witness of C6: a process whose start fails with error 2, although its pipes
would have had bytes. -/
theorem execCommand_start_failure_witness :
    execCommand ⟨some (GoError.other 2), ⟨[[1]], [], GoError.EOF⟩, ⟨[[2]], [], GoError.EOF⟩,
        none, pipeBlocks 65536⟩ Sink.ok Sink.ok
      = some { err := some (GoError.other 2), relays := 0, goroutines := 0, waited := false,
               stdout := Sink.ok, stderr := Sink.ok } :=
  execCommand_start_failure _ Sink.ok Sink.ok (GoError.other 2) rfl

/-- C8 (as amended): for every process that starts, the results of both relays
are dropped. When the process does not stay blocked on what the relays left
unread, `execCommand` returns after both relays and `command.Wait()`, and the
error it returns is exactly the error of `command.Wait()`, whatever the relays
returned; when the process stays blocked, `execCommand` never returns. So
whenever `execCommand` returns for a process that started, its error is the one
of `command.Wait()`. -/
theorem execCommand_drops_relay_errors (p : Proc) (osStdout osStderr : Sink)
    (h : p.startErr = none) :
    (p.blocks (p.stdout.unread (copyAndCapture osStdout p.stdout).reads)
        (p.stderr.unread (copyAndCapture osStderr p.stderr).reads) = false →
      execCommand p osStdout osStderr
        = some { err := p.waitErr, relays := 2, goroutines := 1, waited := true,
                 stdout := (copyAndCapture osStdout p.stdout).sink,
                 stderr := (copyAndCapture osStderr p.stderr).sink }) ∧
    (p.blocks (p.stdout.unread (copyAndCapture osStdout p.stdout).reads)
        (p.stderr.unread (copyAndCapture osStderr p.stderr).reads) = true →
      execCommand p osStdout osStderr = none) ∧
    (∀ r, execCommand p osStdout osStderr = some r → r.err = p.waitErr) := by
  cases hb : p.blocks (p.stdout.unread (copyAndCapture osStdout p.stdout).reads)
      (p.stderr.unread (copyAndCapture osStderr p.stderr).reads) with
  | false =>
    refine ⟨fun _ => by simp [execCommand, h, hb], fun hc => by simp at hc, ?_⟩
    intro r hr
    simp [execCommand, h, hb] at hr
    rw [← hr]
  | true =>
    refine ⟨fun hc => by simp at hc, fun _ => by simp [execCommand, h, hb], ?_⟩
    intro r hr
    simp [execCommand, h, hb] at hr

/-- Witness of C8 (as amended): a process that starts, whose two pipes both
break at their first read, and that exits with error 3: `execCommand` returns
error 3. -/
theorem execCommand_drops_relay_errors_witness :
    execCommand ⟨none, ⟨[], [1], GoError.other 4⟩, ⟨[], [2], GoError.other 5⟩,
        some (GoError.other 3), pipeBlocks 65536⟩ Sink.ok Sink.ok
      = some { err := some (GoError.other 3), relays := 2, goroutines := 1, waited := true,
               stdout := (copyAndCapture Sink.ok ⟨[], [1], GoError.other 4⟩).sink,
               stderr := (copyAndCapture Sink.ok ⟨[], [2], GoError.other 5⟩).sink } :=
  (execCommand_drops_relay_errors
    ⟨none, ⟨[], [1], GoError.other 4⟩, ⟨[], [2], GoError.other 5⟩, some (GoError.other 3),
      pipeBlocks 65536⟩ Sink.ok Sink.ok rfl).1 rfl

/-- Counterexample to C8 as stated: the process starts and exits cleanly, the
relay of its standard output ends with error 4 and the relay of its standard
error with error 5, and `execCommand` returns nil. -/
theorem execCommand_swallows_relay_errors :
    (copyAndCapture Sink.ok ⟨[], [1], GoError.other 4⟩).err = some (GoError.other 4) ∧
    (copyAndCapture Sink.ok ⟨[], [2], GoError.other 5⟩).err = some (GoError.other 5) ∧
    (execCommand ⟨none, ⟨[], [1], GoError.other 4⟩, ⟨[], [2], GoError.other 5⟩, none,
        pipeBlocks 65536⟩ Sink.ok Sink.ok).map (fun r => r.err) = some none := by
  refine ⟨rfl, rfl, rfl⟩

/-- A process that would print `n + 1` slices `d` to its standard output, whose
relay stops at the failed first write, stays blocked when the `n` slices left
unread exceed the capacity of the pipe, and `execCommand` never returns. -/
theorem execCommand_blocked (d : List Byte) (n cap : Nat) (f : WriteFault) (hd : d ≠ [])
    (hcap : cap < n * d.length) :
    execCommand ⟨none, ⟨List.replicate (n + 1) d, [], GoError.EOF⟩, ⟨[], [], GoError.EOF⟩,
        none, pipeBlocks cap⟩ (Sink.failingAt 0 f) Sink.ok = none := by
  have hsplit : List.replicate (n + 1) d ++ [[]] = [] ++ d :: (List.replicate n d ++ [[]]) := by
    simp [List.replicate_succ]
  have h1 := (copyLoop_writeFail [] GoError.EOF d (List.replicate n d ++ [[]]) f hd
    [] (List.replicate (n + 1) d) (Sink.failingAt 0 f)
    [] 0 hsplit (by intro j hj; simp [writesFor] at hj) rfl).2.1
  have h1' : (copyAndCapture (Sink.failingAt 0 f)
      ⟨List.replicate (n + 1) d, [], GoError.EOF⟩).reads = 1 := by
    simpa [copyAndCapture] using h1
  have h2 : (copyAndCapture Sink.ok ⟨[], [], GoError.EOF⟩).reads = 1 := rfl
  have hu : (⟨List.replicate (n + 1) d, [], GoError.EOF⟩ : Reader).unread 1 = n * d.length := by
    simp only [Reader.unread]
    rw [hsplit]
    simp [List.length_flatten, List.sum_replicate]
  simp only [execCommand, h1', h2, hu, pipeBlocks]
  simp [hcap]

/-- A relay that stops at a failed write leaves its pipe unread. When the
standard output sink rejects its first write and the process prints one byte and
exits, `command.Wait()` is called although the pipe was not read to its end;
when the process prints 200 slices of 1024 bytes, it stays blocked on the full
pipe and `execCommand` never returns. -/
theorem execCommand_with_failing_stdout :
    (copyAndCapture (Sink.failingAt 0 ⟨0, GoError.other 9⟩) ⟨[[65]], [], GoError.EOF⟩).reads = 1 ∧
    (execCommand ⟨none, ⟨[[65]], [], GoError.EOF⟩, ⟨[], [], GoError.EOF⟩, none,
        pipeBlocks 65536⟩ (Sink.failingAt 0 ⟨0, GoError.other 9⟩) Sink.ok).map
      (fun r => (r.err, r.waited)) = some (none, true) ∧
    execCommand ⟨none, ⟨List.replicate (199 + 1) (List.replicate 1024 65), [], GoError.EOF⟩,
        ⟨[], [], GoError.EOF⟩, none, pipeBlocks 65536⟩
      (Sink.failingAt 0 ⟨0, GoError.other 9⟩) Sink.ok = none := by
  refine ⟨rfl, rfl, ?_⟩
  have hl : (List.replicate 1024 (65 : Byte)).length = 1024 := List.length_replicate _ _
  refine execCommand_blocked (List.replicate 1024 65) 199 65536 ⟨0, GoError.other 9⟩ ?_ ?_
  · intro h
    rw [h] at hl
    exact absurd hl (by decide)
  · rw [hl]
    decide

/-! ## The nightly tag -/

theorem digitChar_isDigit (n : Nat) (h : n < 10) : isDigit (digitChar n) = true := by
  interval_cases n <;> rfl

theorem digitVal_digitChar (n : Nat) (h : n < 10) : digitVal (digitChar n) = n := by
  interval_cases n <;> rfl

theorem digitVal_lt (c : Char) (h : isDigit c = true) : digitVal c < 10 := by
  simp [isDigit] at h
  unfold digitVal
  omega

theorem digitChar_digitVal (c : Char) (h : isDigit c = true) : digitChar (digitVal c) = c := by
  simp [isDigit] at h
  unfold digitChar digitVal
  have : 48 + (c.toNat - 48) = c.toNat := by omega
  rw [this]
  exact Char.ofNat_toNat c

theorem getnum2_appendInt (x : Nat) (h : x < 100) :
    ∃ a b, appendInt x 2 = [a, b] ∧ getnum2 a b = some x := by
  refine ⟨digitChar (x / 10), digitChar (x % 10), ?_, ?_⟩
  · simp [appendInt, h]
  · have h1 : x / 10 < 10 := by omega
    have h2 : x % 10 < 10 := by omega
    simp [getnum2, digitChar_isDigit _ h1, digitChar_isDigit _ h2, digitVal_digitChar _ h1,
      digitVal_digitChar _ h2]
    omega

theorem getyear_appendInt (x : Nat) (h : x < 10000) :
    ∃ a b c d, appendInt x 4 = [a, b, c, d] ∧ getyear a b c d = some x := by
  refine ⟨digitChar (x / 1000), digitChar (x / 100 % 10), digitChar (x / 10 % 10),
    digitChar (x % 10), ?_, ?_⟩
  · simp [appendInt, h]
  · have h1 : x / 1000 < 10 := by omega
    have h2 : x / 100 % 10 < 10 := by omega
    have h3 : x / 10 % 10 < 10 := by omega
    have h4 : x % 10 < 10 := by omega
    simp [getyear, digitChar_isDigit _ h1, digitChar_isDigit _ h2, digitChar_isDigit _ h3,
      digitChar_isDigit _ h4, digitVal_digitChar _ h1, digitVal_digitChar _ h2,
      digitVal_digitChar _ h3, digitVal_digitChar _ h4]
    omega

theorem appendInt_getnum2 (a b : Char) (x : Nat) (h : getnum2 a b = some x) :
    x < 100 ∧ appendInt x 2 = [a, b] := by
  unfold getnum2 at h
  split at h
  · rename_i hd
    simp at hd h
    obtain ⟨ha, hb⟩ := hd
    have la := digitVal_lt a ha
    have lb := digitVal_lt b hb
    have hx : x < 100 := by omega
    refine ⟨hx, ?_⟩
    have e1 : x / 10 = digitVal a := by omega
    have e2 : x % 10 = digitVal b := by omega
    simp [appendInt, hx, e1, e2, digitChar_digitVal, ha, hb]
  · simp at h

theorem appendInt_getyear (a b c d : Char) (x : Nat) (h : getyear a b c d = some x) :
    x < 10000 ∧ appendInt x 4 = [a, b, c, d] := by
  unfold getyear at h
  split at h
  · rename_i hd
    simp at hd h
    obtain ⟨⟨⟨ha, hb⟩, hc⟩, hdd⟩ := hd
    have la := digitVal_lt a ha
    have lb := digitVal_lt b hb
    have lc := digitVal_lt c hc
    have ld := digitVal_lt d hdd
    have hx : x < 10000 := by omega
    refine ⟨hx, ?_⟩
    have e1 : x / 1000 = digitVal a := by omega
    have e2 : x / 100 % 10 = digitVal b := by omega
    have e3 : x / 10 % 10 = digitVal c := by omega
    have e4 : x % 10 = digitVal d := by omega
    simp [appendInt, hx, e1, e2, e3, e4, digitChar_digitVal, ha, hb, hc, hdd]
  · simp at h

theorem checkDate_some (y m d : Nat) (t : Date) (h : checkDate y m d = some t) :
    t = ⟨y, m, d⟩ ∧ t.valid := by
  unfold checkDate at h
  split at h
  · simp at h
  · split at h
    · simp at h
    · simp at h
      subst h
      refine ⟨rfl, ?_⟩
      unfold Date.valid
      simp
      omega

theorem checkDate_valid (t : Date) (h : t.valid) : checkDate t.year t.month t.day = some t := by
  unfold Date.valid at h
  unfold checkDate
  rw [if_neg (by omega), if_neg (by omega)]

theorem daysIn_le (m y : Nat) : daysIn m y ≤ 31 := by
  unfold daysIn
  split
  · split <;> omega
  · split <;> omega

theorem parseHyphenated_format (t : Date) (h : t.valid) (hy : t.year ≤ 9999) :
    parseHyphenated (formatHyphenated t) = some t := by
  have hv := h
  unfold Date.valid at hv
  have hdl := daysIn_le t.month t.year
  obtain ⟨a, b, c, d, e1, g1⟩ := getyear_appendInt t.year (by omega)
  obtain ⟨m1, m2, e2, g2⟩ := getnum2_appendInt t.month (by omega)
  obtain ⟨d1, d2, e3, g3⟩ := getnum2_appendInt t.day (by omega)
  simp [parseHyphenated, formatHyphenated, e1, e2, e3, g1, g2, g3, checkDate_valid t h]

theorem parseCompact_format (t : Date) (h : t.valid) (hy : t.year ≤ 9999) :
    parseCompact (formatCompact t) = some t := by
  have hv := h
  unfold Date.valid at hv
  have hdl := daysIn_le t.month t.year
  obtain ⟨a, b, c, d, e1, g1⟩ := getyear_appendInt t.year (by omega)
  obtain ⟨m1, m2, e2, g2⟩ := getnum2_appendInt t.month (by omega)
  obtain ⟨d1, d2, e3, g3⟩ := getnum2_appendInt t.day (by omega)
  simp [parseCompact, formatCompact, e1, e2, e3, g1, g2, g3, checkDate_valid t h]

theorem format_of_parseHyphenated (s : String) (t : Date) (h : parseHyphenated s = some t) :
    t.valid ∧ t.year ≤ 9999 ∧ s = formatHyphenated t := by
  unfold parseHyphenated at h
  split at h
  · rename_i y1 y2 y3 y4 h1 m1 m2 h2 d1 d2 hs
    split at h
    · rename_i y m d gy gm gd
      split at h
      · rename_i hh
        obtain ⟨rfl, hv⟩ := checkDate_some y m d t h
        obtain ⟨ly, ey⟩ := appendInt_getyear _ _ _ _ _ gy
        obtain ⟨_, em⟩ := appendInt_getnum2 _ _ _ gm
        obtain ⟨_, ed⟩ := appendInt_getnum2 _ _ _ gd
        refine ⟨hv, by simp; omega, ?_⟩
        apply String.ext
        show s.toList = _
        rw [hs]
        simp [formatHyphenated, ey, em, ed, hh.1, hh.2]
      · simp at h
    · simp at h
  · simp at h

theorem format_of_parseCompact (s : String) (t : Date) (h : parseCompact s = some t) :
    t.valid ∧ t.year ≤ 9999 ∧ s = formatCompact t := by
  unfold parseCompact at h
  split at h
  · rename_i y1 y2 y3 y4 m1 m2 d1 d2 hs
    split at h
    · rename_i y m d gy gm gd
      obtain ⟨rfl, hv⟩ := checkDate_some y m d t h
      obtain ⟨ly, ey⟩ := appendInt_getyear _ _ _ _ _ gy
      obtain ⟨_, em⟩ := appendInt_getnum2 _ _ _ gm
      obtain ⟨_, ed⟩ := appendInt_getnum2 _ _ _ gd
      refine ⟨hv, by simp; omega, ?_⟩
      apply String.ext
      show s.toList = _
      rw [hs]
      simp [formatCompact, ey, em, ed]
    · simp at h
  · simp at h

theorem length_appendInt4 (x : Nat) (h : x ≤ 9999) : (appendInt x 4).length = 4 := by
  have : x < 10000 := by omega
  simp [appendInt, this]

theorem length_appendInt2 (x : Nat) (h : x < 100) : (appendInt x 2).length = 2 := by
  simp [appendInt, h]

theorem length_formatCompact (t : Date) (h : t.valid) (hy : t.year ≤ 9999) :
    (formatCompact t).length = 8 := by
  have hv := h
  unfold Date.valid at hv
  have hdl := daysIn_le t.month t.year
  simp [formatCompact, String.length, length_appendInt4 _ hy,
    length_appendInt2 t.month (by omega), length_appendInt2 t.day (by omega)]

theorem length_formatHyphenated (t : Date) (h : t.valid) (hy : t.year ≤ 9999) :
    (formatHyphenated t).length = 10 := by
  have hv := h
  unfold Date.valid at hv
  have hdl := daysIn_le t.month t.year
  simp [formatHyphenated, String.length, length_appendInt4 _ hy,
    length_appendInt2 t.month (by omega), length_appendInt2 t.day (by omega)]

theorem parseHyphenated_of_length (s : String) (h : s.length ≠ 10) : parseHyphenated s = none := by
  unfold parseHyphenated
  split
  · rename_i hs
    have : s.length = 10 := by
      show s.toList.length = 10
      rw [hs]; rfl
    exact absurd this h
  · rfl

theorem ne_of_length_ne (s u : String) (h : s.length ≠ u.length) : s ≠ u := by
  intro e
  exact h (by rw [e])

theorem getNightlyTag_of_hyphenated (now t : Date) (h : t.valid) (hy : t.year ≤ 9999) :
    getNightlyTag now (formatHyphenated t) = (formatCompact t, "nightly-" ++ formatCompact t) := by
  have hl := length_formatHyphenated t h hy
  have h1 : formatHyphenated t ≠ "latest" := ne_of_length_ne _ _ (by rw [hl]; decide)
  have h2 : formatHyphenated t ≠ "" := ne_of_length_ne _ _ (by rw [hl]; decide)
  simp [getNightlyTag, h1, h2, parseHyphenated_format t h hy]

theorem getNightlyTag_of_compact (now t : Date) (h : t.valid) (hy : t.year ≤ 9999) :
    getNightlyTag now (formatCompact t) = (formatCompact t, "nightly-" ++ formatCompact t) := by
  have hl := length_formatCompact t h hy
  have h1 : formatCompact t ≠ "latest" := ne_of_length_ne _ _ (by rw [hl]; decide)
  have h2 : formatCompact t ≠ "" := ne_of_length_ne _ _ (by rw [hl]; decide)
  have h3 : parseHyphenated (formatCompact t) = none :=
    parseHyphenated_of_length _ (by rw [hl]; decide)
  simp [getNightlyTag, h1, h2, h3, parseCompact_format t h hy]

theorem getNightlyTag_of_other (now : Date) (date : String) (hne : date ≠ "latest")
    (hno : ¬ ∃ t : Date, t.valid ∧ t.year ≤ 9999 ∧
        (date = formatHyphenated t ∨ date = formatCompact t)) :
    getNightlyTag now date = ("", "") := by
  unfold getNightlyTag
  rw [if_neg hne]
  by_cases he : date = ""
  · simp [he]
  · rw [if_pos he]
    cases hp : parseHyphenated date with
    | some t =>
      obtain ⟨a, b, c⟩ := format_of_parseHyphenated date t hp
      exact absurd ⟨t, a, b, Or.inl c⟩ hno
    | none =>
      cases hc : parseCompact date with
      | some t =>
        obtain ⟨a, b, c⟩ := format_of_parseCompact date t hc
        exact absurd ⟨t, a, b, Or.inr c⟩ hno
      | none => rfl

theorem prevDay_year_le (t : Date) : (prevDay t).year ≤ t.year := by
  unfold prevDay
  split
  · exact Nat.le_refl _
  · split
    · exact Nat.le_refl _
    · exact Nat.sub_le _ _

theorem isLeap_iff (y : Nat) : isLeap y = true ↔ LeapYear y := by
  simp only [isLeap, LeapYear, Nat.dvd_iff_mod_eq_zero, Bool.and_eq_true, Bool.or_eq_true,
    decide_eq_true_eq, ne_eq]
  constructor
  · intro h
    omega
  · intro h
    omega

theorem daysIn_eq_monthLength (m y : Nat) (h1 : 1 ≤ m) (h2 : m ≤ 12) :
    daysIn m y = (monthLengths y).getD (m - 1) 0 := by
  have hl := isLeap_iff y
  by_cases hy : LeapYear y
  · have hb : isLeap y = true := hl.mpr hy
    interval_cases m <;> simp [daysIn, monthLengths, hy, hb]
  · have hb : isLeap y = false := by
      cases h : isLeap y with
      | false => rfl
      | true => exact absurd (hl.mp h) hy
    interval_cases m <;> simp [daysIn, monthLengths, hy, hb]

theorem valid_iff_calendar (t : Date) : t.valid ↔ IsCalendarDate t := by
  unfold Date.valid IsCalendarDate
  constructor
  · intro ⟨a, b, c, d⟩
    exact ⟨a, b, c, by rw [← daysIn_eq_monthLength _ _ a b]; exact d⟩
  · intro ⟨a, b, c, d⟩
    exact ⟨a, b, c, by rw [daysIn_eq_monthLength _ _ a b]; exact d⟩

theorem decimalValue_two (a b : Char) :
    decimalValue [a, b] = (a.toNat - 48) * 10 + (b.toNat - 48) := by
  simp [decimalValue]
  omega

theorem decimalValue_four (a b c d : Char) :
    decimalValue [a, b, c, d]
      = (a.toNat - 48) * 1000 + (b.toNat - 48) * 100 + (c.toNat - 48) * 10 + (d.toNat - 48) := by
  simp [decimalValue]
  omega

theorem isNumeral_two (v : Nat) (cs : List Char) :
    IsNumeral 2 v cs ↔ v < 100 ∧ cs = appendInt v 2 := by
  constructor
  · intro ⟨hl, hd, hv⟩
    obtain ⟨a, b, rfl⟩ := List.length_eq_two.mp hl
    have ha := hd a (by simp)
    have hb := hd b (by simp)
    have hg : getnum2 a b = some v := by
      rw [decimalValue_two] at hv
      simp [getnum2, isDigit, digitVal, ha, hb, hv]
    obtain ⟨h1, h2⟩ := appendInt_getnum2 a b v hg
    exact ⟨h1, h2.symm⟩
  · intro ⟨hlt, he⟩
    obtain ⟨a, b, e1, g1⟩ := getnum2_appendInt v hlt
    rw [he, e1]
    unfold getnum2 at g1
    split at g1
    · rename_i hd
      simp [isDigit] at hd g1
      refine ⟨rfl, ?_, ?_⟩
      · intro c hc
        simp at hc
        rcases hc with rfl | rfl
        · exact hd.1
        · exact hd.2
      · rw [decimalValue_two]
        simpa [digitVal] using g1
    · simp at g1

theorem isNumeral_four (v : Nat) (cs : List Char) :
    IsNumeral 4 v cs ↔ v < 10000 ∧ cs = appendInt v 4 := by
  constructor
  · intro ⟨hl, hd, hv⟩
    obtain ⟨a, b, c, d, rfl⟩ : ∃ a b c d, cs = [a, b, c, d] := by
      match cs, hl with
      | [a, b, c, d], _ => exact ⟨a, b, c, d, rfl⟩
    have ha := hd a (by simp)
    have hb := hd b (by simp)
    have hc := hd c (by simp)
    have hdd := hd d (by simp)
    have hg : getyear a b c d = some v := by
      rw [decimalValue_four] at hv
      simp [getyear, isDigit, digitVal, ha, hb, hc, hdd, hv]
    obtain ⟨h1, h2⟩ := appendInt_getyear a b c d v hg
    exact ⟨h1, h2.symm⟩
  · intro ⟨hlt, he⟩
    obtain ⟨a, b, c, d, e1, g1⟩ := getyear_appendInt v hlt
    rw [he, e1]
    unfold getyear at g1
    split at g1
    · rename_i hd
      simp [isDigit] at hd g1
      refine ⟨rfl, ?_, ?_⟩
      · intro x hx
        simp at hx
        rcases hx with rfl | rfl | rfl | rfl
        · exact hd.1.1.1
        · exact hd.1.1.2
        · exact hd.1.2
        · exact hd.2
      · rw [decimalValue_four]
        simpa [digitVal] using g1
    · simp at g1

theorem isCompact_iff (t : Date) (s : String) :
    IsCompact t s ↔ t.year < 10000 ∧ t.month < 100 ∧ t.day < 100 ∧ s = formatCompact t := by
  constructor
  · intro ⟨a, b, c, hs, ha, hb, hc⟩
    obtain ⟨h1, e1⟩ := (isNumeral_four _ _).mp ha
    obtain ⟨h2, e2⟩ := (isNumeral_two _ _).mp hb
    obtain ⟨h3, e3⟩ := (isNumeral_two _ _).mp hc
    refine ⟨h1, h2, h3, ?_⟩
    apply String.ext
    show s.toList = _
    rw [hs, e1, e2, e3]
    rfl
  · intro ⟨h1, h2, h3, hs⟩
    refine ⟨appendInt t.year 4, appendInt t.month 2, appendInt t.day 2, ?_,
      (isNumeral_four _ _).mpr ⟨h1, rfl⟩, (isNumeral_two _ _).mpr ⟨h2, rfl⟩,
      (isNumeral_two _ _).mpr ⟨h3, rfl⟩⟩
    rw [hs]
    rfl

theorem isHyphenated_iff (t : Date) (s : String) :
    IsHyphenated t s ↔
      t.year < 10000 ∧ t.month < 100 ∧ t.day < 100 ∧ s = formatHyphenated t := by
  constructor
  · intro ⟨a, b, c, hs, ha, hb, hc⟩
    obtain ⟨h1, e1⟩ := (isNumeral_four _ _).mp ha
    obtain ⟨h2, e2⟩ := (isNumeral_two _ _).mp hb
    obtain ⟨h3, e3⟩ := (isNumeral_two _ _).mp hc
    refine ⟨h1, h2, h3, ?_⟩
    apply String.ext
    show s.toList = _
    rw [hs, e1, e2, e3]
    rfl
  · intro ⟨h1, h2, h3, hs⟩
    refine ⟨appendInt t.year 4, appendInt t.month 2, appendInt t.day 2, ?_,
      (isNumeral_four _ _).mpr ⟨h1, rfl⟩, (isNumeral_two _ _).mpr ⟨h2, rfl⟩,
      (isNumeral_two _ _).mpr ⟨h3, rfl⟩⟩
    rw [hs]
    rfl

theorem calendar_bounds (t : Date) (h : IsCalendarDate t) : t.month < 100 ∧ t.day < 100 := by
  have hv := (valid_iff_calendar t).mpr h
  unfold Date.valid at hv
  have := daysIn_le t.month t.year
  omega

theorem yearsBefore_succ (y : Nat) :
    ((List.range (y + 1)).map yearLength).sum
      = ((List.range y).map yearLength).sum + yearLength y := by
  simp [List.range_succ]

theorem yearLength_eq (y : Nat) : yearLength y = if LeapYear y then 366 else 365 := by
  by_cases h : LeapYear y <;> simp [yearLength, monthLengths, h]

theorem yearsBefore_mono (a b : Nat) (h : a ≤ b) :
    ((List.range a).map yearLength).sum ≤ ((List.range b).map yearLength).sum := by
  induction b with
  | zero =>
    have : a = 0 := by omega
    subst this
    exact Nat.le_refl _
  | succ b ih =>
    by_cases hab : a = b + 1
    · subst hab
      exact Nat.le_refl _
    · have := ih (by omega)
      rw [yearsBefore_succ]
      omega

theorem sum_take_succ (l : List Nat) (n : Nat) :
    (l.take (n + 1)).sum = (l.take n).sum + l.getD n 0 := by
  rw [List.take_succ, List.sum_append]
  cases h : l[n]? with
  | none => simp [List.getD, h]
  | some x => simp [List.getD, h]

theorem sum_take_mono (l : List Nat) (a b : Nat) (h : a ≤ b) :
    (l.take a).sum ≤ (l.take b).sum := by
  induction b with
  | zero =>
    have : a = 0 := by omega
    subst this
    exact Nat.le_refl _
  | succ b ih =>
    by_cases hab : a = b + 1
    · subst hab
      exact Nat.le_refl _
    · have := ih (by omega)
      rw [sum_take_succ]
      omega

/-- The days of a month of a date of the calendar end before the next month
starts. -/
theorem month_bounds (t : Date) (h : IsCalendarDate t) :
    ((monthLengths t.year).take (t.month - 1)).sum + t.day
      ≤ ((monthLengths t.year).take t.month).sum := by
  obtain ⟨h1, _, _, h4⟩ := h
  have := sum_take_succ (monthLengths t.year) (t.month - 1)
  have e : t.month - 1 + 1 = t.month := by omega
  rw [e] at this
  omega

/-- The day of the year of a date of the calendar lies within its year. -/
theorem dayOfYear_bounds (t : Date) (h : IsCalendarDate t) :
    1 ≤ ((monthLengths t.year).take (t.month - 1)).sum + t.day ∧
    ((monthLengths t.year).take (t.month - 1)).sum + t.day ≤ yearLength t.year := by
  have hb := month_bounds t h
  obtain ⟨_, h2, h3, _⟩ := h
  have hm := sum_take_mono (monthLengths t.year) t.month 12 h2
  have hall : (monthLengths t.year).take 12 = monthLengths t.year := by
    simp [monthLengths]
  rw [hall] at hm
  unfold yearLength
  omega

theorem dayNumber_injective (t u : Date) (ht : IsCalendarDate t) (hu : IsCalendarDate u)
    (h : dayNumber t = dayNumber u) : t = u := by
  have bt := dayOfYear_bounds t ht
  have bu := dayOfYear_bounds u hu
  unfold dayNumber at h
  have hyear : t.year = u.year := by
    by_contra hne
    rcases Nat.lt_or_gt_of_ne hne with hlt | hgt
    · have := yearsBefore_mono (t.year + 1) u.year (by omega)
      rw [yearsBefore_succ] at this
      omega
    · have := yearsBefore_mono (u.year + 1) t.year (by omega)
      rw [yearsBefore_succ] at this
      omega
  have mt := month_bounds t ht
  have mu := month_bounds u hu
  obtain ⟨y, m, d⟩ := t
  obtain ⟨y', m', d'⟩ := u
  simp only at hyear
  subst hyear
  obtain ⟨h1, h2, h3, h4⟩ := ht
  obtain ⟨g1, g2, g3, g4⟩ := hu
  simp only at h1 h2 h3 h4 g1 g2 g3 g4 h mt mu
  have hmonth : m = m' := by
    by_contra hne
    rcases Nat.lt_or_gt_of_ne hne with hlt | hgt
    · have := sum_take_mono (monthLengths y) m (m' - 1) (by omega)
      omega
    · have := sum_take_mono (monthLengths y) m' (m - 1) (by omega)
      omega
  subst hmonth
  have : d = d' := by omega
  subst this
  rfl

theorem daysIn_ge (m y : Nat) : 28 ≤ daysIn m y := by
  unfold daysIn
  split
  · split <;> omega
  · split <;> omega

/-- The model of `AddDate(0, 0, -1)` gives the day before a date of the calendar
that is not in year 0. -/
theorem prevDay_isDayBefore (t : Date) (h : IsCalendarDate t) (hy : 1 ≤ t.year) :
    IsDayBefore (prevDay t) t := by
  obtain ⟨y, m, d⟩ := t
  obtain ⟨h1, h2, h3, h4⟩ := h
  simp only at h1 h2 h3 h4 hy
  by_cases hd : 1 < d
  · have e : prevDay ⟨y, m, d⟩ = ⟨y, m, d - 1⟩ := by simp [prevDay, hd]
    rw [e]
    refine ⟨⟨h1, h2, by simp only; omega, by simp only; omega⟩, ?_⟩
    simp only [dayNumber]
    omega
  · have hd1 : d = 1 := by omega
    subst hd1
    by_cases hm : 1 < m
    · have e : prevDay ⟨y, m, 1⟩ = ⟨y, m - 1, daysIn (m - 1) y⟩ := by simp [prevDay, hm]
      rw [e]
      have hlen := daysIn_eq_monthLength (m - 1) y (by omega) (by omega)
      have hge := daysIn_ge (m - 1) y
      refine ⟨⟨by simp only; omega, by simp only; omega, by simp only; omega,
        by simp only; omega⟩, ?_⟩
      simp only [dayNumber]
      have hs := sum_take_succ (monthLengths y) (m - 1 - 1)
      have e2 : m - 1 - 1 + 1 = m - 1 := by omega
      rw [e2] at hs
      omega
    · have hm1 : m = 1 := by omega
      subst hm1
      have e : prevDay ⟨y, 1, 1⟩ = ⟨y - 1, 12, 31⟩ := by simp [prevDay]
      rw [e]
      refine ⟨⟨by simp, by simp, by simp, by simp [monthLengths]⟩, ?_⟩
      simp only [dayNumber]
      have hyy : y - 1 + 1 = y := by omega
      have hY := yearsBefore_succ (y - 1)
      rw [hyy] at hY
      have hs := sum_take_succ (monthLengths (y - 1)) 11
      have hall : (monthLengths (y - 1)).take (11 + 1) = monthLengths (y - 1) := by
        simp [monthLengths]
      rw [hall] at hs
      have h31 : (monthLengths (y - 1)).getD 11 0 = 31 := by simp [monthLengths]
      have h0 : ((monthLengths y).take (1 - 1)).sum = 0 := by simp
      have e12 : (12 : Nat) - 1 = 11 := rfl
      rw [e12, h0, hY]
      unfold yearLength
      omega

theorem isCompact_formatCompact (t : Date) (h : IsCalendarDate t) (hy : t.year ≤ 9999) :
    IsCompact t (formatCompact t) := by
  obtain ⟨a, b⟩ := calendar_bounds t h
  exact (isCompact_iff t _).mpr ⟨by omega, a, b, rfl⟩

theorem nightlyRule_getNightlyTag (now : Date) (date : String)
    (hnow : date = "latest" → IsCalendarDate now ∧ 1 ≤ now.year ∧ now.year ≤ 9999) :
    NightlyRule now date (getNightlyTag now date).1 (getNightlyTag now date).2 := by
  refine ⟨?_, ?_⟩
  · intro h
    obtain ⟨hcal, h1, h2⟩ := hnow h
    subst h
    have hb := prevDay_isDayBefore now hcal h1
    have hyl := prevDay_year_le now
    refine ⟨prevDay now, hb, ?_, ?_⟩
    · have : (getNightlyTag now "latest").1 = formatCompact (prevDay now) := by
        simp [getNightlyTag]
      rw [this]
      exact isCompact_formatCompact _ hb.1 (by omega)
    · simp [getNightlyTag]
  · intro hne
    refine ⟨?_, ?_⟩
    · intro t hc hd
      have hv := (valid_iff_calendar t).mpr hc
      rcases hd with hd | hd
      · obtain ⟨a, _, _, e⟩ := (isHyphenated_iff t date).mp hd
        subst e
        rw [getNightlyTag_of_hyphenated now t hv (by omega)]
        exact ⟨isCompact_formatCompact t hc (by omega), rfl⟩
      · obtain ⟨a, _, _, e⟩ := (isCompact_iff t date).mp hd
        subst e
        rw [getNightlyTag_of_compact now t hv (by omega)]
        exact ⟨isCompact_formatCompact t hc (by omega), rfl⟩
    · intro hno
      rw [getNightlyTag_of_other now date hne]
      · exact ⟨rfl, rfl⟩
      · intro ⟨t, hv, hy, hd⟩
        have hc := (valid_iff_calendar t).mp hv
        obtain ⟨a, b⟩ := calendar_bounds t hc
        apply hno
        refine ⟨t, hc, ?_⟩
        rcases hd with hd | hd
        · exact Or.inl ((isHyphenated_iff t date).mpr ⟨by omega, a, b, hd⟩)
        · exact Or.inr ((isCompact_iff t date).mpr ⟨by omega, a, b, hd⟩)

theorem isCompact_unique (t : Date) (s u : String) (hs : IsCompact t s) (hu : IsCompact t u) :
    s = u := by
  obtain ⟨_, _, _, e1⟩ := (isCompact_iff t s).mp hs
  obtain ⟨_, _, _, e2⟩ := (isCompact_iff t u).mp hu
  rw [e1, e2]

theorem nightlyRule_unique (now : Date) (date dateStr tag : String)
    (hnow : date = "latest" → IsCalendarDate now ∧ 1 ≤ now.year ∧ now.year ≤ 9999)
    (h : NightlyRule now date dateStr tag) : (dateStr, tag) = getNightlyTag now date := by
  have hg := nightlyRule_getNightlyTag now date hnow
  by_cases hl : date = "latest"
  · obtain ⟨y, ⟨yc, yn⟩, a, b⟩ := h.1 hl
    obtain ⟨z, ⟨zc, zn⟩, c, d⟩ := hg.1 hl
    have hyz : y = z := dayNumber_injective y z yc zc (by omega)
    subst hyz
    have e := isCompact_unique y _ _ a c
    rw [Prod.ext_iff]
    exact ⟨e, by rw [b, d, e]⟩
  · by_cases hex : ∃ t : Date, IsCalendarDate t ∧ (IsHyphenated t date ∨ IsCompact t date)
    · obtain ⟨t, hc, hd⟩ := hex
      obtain ⟨a, b⟩ := (h.2 hl).1 t hc hd
      obtain ⟨c, d⟩ := (hg.2 hl).1 t hc hd
      have e := isCompact_unique t _ _ a c
      rw [Prod.ext_iff]
      exact ⟨e, by rw [b, d, e]⟩
    · obtain ⟨a, b⟩ := (h.2 hl).2 hex
      obtain ⟨c, d⟩ := (hg.2 hl).2 hex
      rw [Prod.ext_iff]
      exact ⟨by rw [a, c], by rw [b, d]⟩

theorem getNightlyTag_examples (now : Date) :
    getNightlyTag now "2020-01-02" = ("20200102", "nightly-20200102") ∧
    getNightlyTag now "20200102" = ("20200102", "nightly-20200102") ∧
    getNightlyTag now "not-a-date" = ("", "") ∧
    getNightlyTag now "" = ("", "") ∧
    getNightlyTag now "2020-02-29" = ("20200229", "nightly-20200229") ∧
    getNightlyTag now "20000229" = ("20000229", "nightly-20000229") ∧
    getNightlyTag now "2019-02-29" = ("", "") ∧
    getNightlyTag now "19000229" = ("", "") ∧
    getNightlyTag now "2020-04-31" = ("", "") ∧
    getNightlyTag now "2020-13-01" = ("", "") ∧
    getNightlyTag now "2020-00-10" = ("", "") ∧
    getNightlyTag now "2020-01-00" = ("", "") ∧
    getNightlyTag ⟨2020, 3, 1⟩ "latest" = ("20200229", "nightly-20200229") ∧
    getNightlyTag ⟨2021, 3, 1⟩ "latest" = ("20210228", "nightly-20210228") ∧
    getNightlyTag ⟨2100, 3, 1⟩ "latest" = ("21000228", "nightly-21000228") ∧
    getNightlyTag ⟨2020, 1, 1⟩ "latest" = ("20191231", "nightly-20191231") ∧
    getNightlyTag ⟨2020, 5, 1⟩ "latest" = ("20200430", "nightly-20200430") ∧
    getNightlyTag ⟨2020, 5, 17⟩ "latest" = ("20200516", "nightly-20200516") := by
  refine ⟨?_, ?_, ?_, ?_, ?_, ?_, ?_, ?_, ?_, ?_, ?_, ?_, ?_, ?_, ?_, ?_, ?_, ?_⟩ <;> rfl

/-- C5: `getNightlyTag` satisfies the resolution rule of the specification for
every input and every current date, and the rule leaves no other result. The
rule is stated without the code: for the input "latest" the date is the compact
form (four digits of the year, two of the month, two of the day) of the date of
the calendar whose day number is one less than the one of the current date, and
the tag is "nightly-" followed by it; for a date of the calendar written
`YYYY-MM-DD` or `YYYYMMDD` the date is its compact form and the tag is that of
the form, the same for both layouts; for every other input both are empty. The
current date is a date of the calendar in the years 1..9999, which is needed
for "latest" only. The examples of the specification are instances, and so are
leap days, days that do not exist, and the day before the first of a month and
of a year. -/
theorem getNightlyTag_resolution (now : Date) (date : String)
    (hnow : date = "latest" → IsCalendarDate now ∧ 1 ≤ now.year ∧ now.year ≤ 9999) :
    NightlyRule now date (getNightlyTag now date).1 (getNightlyTag now date).2 ∧
    (∀ dateStr tag : String, NightlyRule now date dateStr tag →
      (dateStr, tag) = getNightlyTag now date) ∧
    getNightlyTag now "2020-01-02" = ("20200102", "nightly-20200102") ∧
    getNightlyTag now "20200102" = ("20200102", "nightly-20200102") ∧
    getNightlyTag now "not-a-date" = ("", "") ∧
    getNightlyTag now "" = ("", "") ∧
    getNightlyTag now "2020-02-29" = ("20200229", "nightly-20200229") ∧
    getNightlyTag now "20000229" = ("20000229", "nightly-20000229") ∧
    getNightlyTag now "2019-02-29" = ("", "") ∧
    getNightlyTag now "19000229" = ("", "") ∧
    getNightlyTag now "2020-04-31" = ("", "") ∧
    getNightlyTag now "2020-13-01" = ("", "") ∧
    getNightlyTag now "2020-00-10" = ("", "") ∧
    getNightlyTag now "2020-01-00" = ("", "") ∧
    getNightlyTag ⟨2020, 3, 1⟩ "latest" = ("20200229", "nightly-20200229") ∧
    getNightlyTag ⟨2021, 3, 1⟩ "latest" = ("20210228", "nightly-20210228") ∧
    getNightlyTag ⟨2100, 3, 1⟩ "latest" = ("21000228", "nightly-21000228") ∧
    getNightlyTag ⟨2020, 1, 1⟩ "latest" = ("20191231", "nightly-20191231") ∧
    getNightlyTag ⟨2020, 5, 1⟩ "latest" = ("20200430", "nightly-20200430") ∧
    getNightlyTag ⟨2020, 5, 17⟩ "latest" = ("20200516", "nightly-20200516") :=
  ⟨nightlyRule_getNightlyTag now date hnow,
    fun dateStr tag h => nightlyRule_unique now date dateStr tag hnow h,
    getNightlyTag_examples now⟩

/-- Witness of C5: on 1 March 2020 the input "latest" gives 29 February 2020. -/
theorem getNightlyTag_resolution_witness :
    NightlyRule ⟨2020, 3, 1⟩ "latest" "20200229" "nightly-20200229" :=
  (getNightlyTag_resolution ⟨2020, 3, 1⟩ "latest"
    (fun _ => ⟨by decide, by decide, by decide⟩)).1

/-! ## Wait-group batches -/

theorem set_split (jobs : List Job) : ∀ (i : Nat) (old : Job), jobs[i]? = some old →
    ∃ l1 l2, jobs = l1 ++ old :: l2 ∧ ∀ new, jobs.set i new = l1 ++ new :: l2 := by
  induction jobs with
  | nil => intro i old h; simp at h
  | cons j js ih =>
    intro i old h
    cases i with
    | zero =>
      simp at h
      subst h
      exact ⟨[], js, rfl, fun _ => rfl⟩
    | succ i =>
      simp at h
      obtain ⟨l1, l2, e1, e2⟩ := ih i old h
      refine ⟨j :: l1, l2, by simp [e1], ?_⟩
      intro new
      simp [e2]

theorem adds_append (l1 l2 : List Event) : adds (l1 ++ l2) = adds l1 ++ adds l2 := by
  simp [adds]

theorem execs_append (l1 l2 : List Event) : execs (l1 ++ l2) = execs l1 ++ execs l2 := by
  simp [execs]

theorem dones_append (l1 l2 : List Event) : dones (l1 ++ l2) = dones l1 ++ dones l2 := by
  simp [dones]

theorem unfinished_eq_zero (jobs : List Job) (h : unfinished jobs = 0) :
    ∀ j ∈ jobs, j.pc = JobPc.finished := by
  intro j hj
  by_contra hne
  have : j ∈ jobs.filter (fun j => decide (j.pc ≠ JobPc.finished)) := by
    simp [List.mem_filter, hj, hne]
  have hl := List.length_pos_of_mem this
  unfold unfinished at h
  omega

theorem exists_unfinished (jobs : List Job) (h : 0 < unfinished jobs) :
    ∃ (i : Nat) (j : Job), jobs[i]? = some j ∧ j.pc ≠ JobPc.finished := by
  unfold unfinished at h
  obtain ⟨j, hj⟩ := List.exists_mem_of_length_pos h
  simp [List.mem_filter] at hj
  obtain ⟨i, hi, e⟩ := List.getElem_of_mem hj.1
  exact ⟨i, j, by rw [List.getElem?_eq_getElem hi, e], hj.2⟩

theorem batchInv_init (images : List String) (log0 : List Event) :
    BatchInv images log0 (Batch.init images log0) := by
  refine ⟨rfl, rfl, Nat.zero_le _, by simp [Batch.init], by simp [Batch.init, unfinished],
    rfl, ⟨[], by simp [Batch.init, adds, dones, finishedImages, execs]⟩, ?_⟩
  intro h
  simp [Batch.init] at h

theorem stepMain_inv (images : List String) (log0 : List Event) (b b' : Batch)
    (h : BatchInv images log0 b) (hs : stepMain b = some b') :
    BatchInv images log0 b' ∧ b'.measure < b.measure := by
  obtain ⟨himages, hlaunched, hle, hjobs, hwg, herr, ⟨body, hlog, hnw, hadds, hdones, hexecs⟩, hret⟩ := h
  unfold stepMain at hs
  cases hr : b.returned with
  | true => simp [hr] at hs
  | false =>
    simp only [hr] at hs hlog
    cases hi : b.images[b.launched]? with
    | some image =>
      simp only [hi, pullAndLoadImageSync] at hs
      simp at hs
      subst hs
      have hlt : b.launched < b.images.length := by
        by_contra hc
        rw [List.getElem?_eq_none (by omega)] at hi
        simp at hi
      have himg : images[b.launched]? = some image := by rw [← himages]; exact hi
      constructor
      · refine ⟨himages, by simp [hlaunched], by simp; rw [← himages]; omega, ?_, ?_, herr,
          ⟨body ++ [Event.add image], ?_, ?_, ?_, ?_, ?_⟩, ?_⟩
        · simp [hjobs, List.take_succ, himg]
        · simp [hwg, unfinished, List.filter_append]
        · simp [hr, hlog]
        · simp [hnw]
        · rw [adds_append, hadds]
          simp [adds, List.take_succ, himg]
        · simpa [dones_append, dones, finishedImages, List.filter_append] using hdones
        · rw [execs_append]
          simpa [execs] using hexecs
        · intro hc
          simp [hr] at hc
      · simp [Batch.measure, hr, JobPc.remaining]
        omega
    | none =>
      simp only [hi] at hs
      by_cases hz : b.wg = 0
      · simp [hz] at hs
        subst hs
        have hge : b.images.length ≤ b.launched := by
          by_contra hc
          have : b.launched < b.images.length := by omega
          rw [List.getElem?_eq_getElem this] at hi
          simp at hi
        have hu : unfinished b.jobs = 0 := by
          rw [hz] at hwg
          exact_mod_cast hwg.symm
        constructor
        · refine ⟨himages, hlaunched, hle, hjobs, by simp [hz, hu], herr,
            ⟨body, by simp [hlog], hnw, hadds, hdones, hexecs⟩, ?_⟩
          intro _
          refine ⟨?_, hu⟩
          show b.launched = images.length
          rw [← himages] at hle ⊢
          omega
        · simp [Batch.measure, hr]
      · simp [hz] at hs

theorem not_returned_of_unfinished (images : List String) (log0 : List Event) (b : Batch)
    (h : BatchInv images log0 b) (l1 l2 : List Job) (image : String) (pc : JobPc)
    (hj : b.jobs = l1 ++ ⟨image, pc⟩ :: l2) (hpc : pc ≠ JobPc.finished) :
    b.returned = false := by
  cases hr : b.returned with
  | false => rfl
  | true =>
    have := unfinished_eq_zero b.jobs (h.hret hr).2 ⟨image, pc⟩ (by simp [hj])
    exact absurd this hpc

theorem exec_step_inv (images : List String) (log0 : List Event) (b : Batch)
    (h : BatchInv images log0 b) (l1 l2 : List Job) (image : String) (pc pc' : JobPc)
    (c : Cmd) (err : Option GoError)
    (hj : b.jobs = l1 ++ ⟨image, pc⟩ :: l2) (hpc : pc ≠ JobPc.finished)
    (hpc' : pc' ≠ JobPc.finished) (hrem : pc'.remaining < pc.remaining)
    (hc : c = pullCmd image ∨ c = loadCmd image) :
    BatchInv images log0
      { b with jobs := l1 ++ ⟨image, pc'⟩ :: l2, log := b.log ++ [Event.exec c err] } ∧
    Batch.measure
      { b with jobs := l1 ++ ⟨image, pc'⟩ :: l2, log := b.log ++ [Event.exec c err] }
      < b.measure := by
  have hr := not_returned_of_unfinished images log0 b h l1 l2 image pc hj hpc
  obtain ⟨himages, hlaunched, hle, hjobs, hwg, herr, ⟨body, hlog, hnw, hadds, hdones, hexecs⟩, hret⟩ := h
  constructor
  · refine ⟨himages, by simp [hlaunched, hj], hle, ?_, ?_, herr,
      ⟨body ++ [Event.exec c err], ?_, ?_, ?_, ?_, ?_⟩, ?_⟩
    · rw [← hjobs, hj]
      simp
    · rw [hwg, hj]
      simp [unfinished, List.filter_append, List.filter_cons, hpc, hpc']
    · simp [hr, hlog]
    · simp [hnw]
    · rw [adds_append, hadds]
      simp [adds]
    · rw [dones_append]
      simpa [dones, finishedImages, hj, List.filter_append, List.filter_cons, hpc, hpc']
        using hdones
    · have hmem : image ∈ images := by
        have : image ∈ b.jobs.map Job.image := by simp [hj]
        rw [hjobs] at this
        exact List.mem_of_mem_take this
      rw [execs_append]
      intro c' hc'
      rcases List.mem_append.mp hc' with h1 | h1
      · exact hexecs c' h1
      · have : c' = c := by simpa [execs] using h1
        subst this
        exact ⟨image, hmem, hc⟩
    · intro hc
      simp [hr] at hc
  · simp only [Batch.measure, hj, List.map_append, List.map_cons, List.sum_append, List.sum_cons]
    omega

theorem done_step_inv (images : List String) (log0 : List Event) (b : Batch)
    (h : BatchInv images log0 b) (l1 l2 : List Job) (image : String)
    (hj : b.jobs = l1 ++ ⟨image, JobPc.done⟩ :: l2) :
    BatchInv images log0
      { b with jobs := l1 ++ ⟨image, JobPc.finished⟩ :: l2, wg := b.wg - 1,
               log := b.log ++ [Event.done image] } ∧
    Batch.measure
      { b with jobs := l1 ++ ⟨image, JobPc.finished⟩ :: l2, wg := b.wg - 1,
               log := b.log ++ [Event.done image] }
      < b.measure := by
  have hr := not_returned_of_unfinished images log0 b h l1 l2 image JobPc.done hj (by decide)
  obtain ⟨himages, hlaunched, hle, hjobs, hwg, herr, ⟨body, hlog, hnw, hadds, hdones, hexecs⟩, hret⟩ := h
  constructor
  · refine ⟨himages, by simp [hlaunched, hj], hle, ?_, ?_, herr,
      ⟨body ++ [Event.done image], ?_, ?_, ?_, ?_, ?_⟩, ?_⟩
    · rw [← hjobs, hj]
      simp
    · rw [hwg, hj]
      simp [unfinished, List.filter_append, List.filter_cons]
      omega
    · simp [hr, hlog]
    · simp [hnw]
    · rw [adds_append, hadds]
      simp [adds]
    · rw [dones_append]
      have hd : (dones body).Perm (finishedImages l1 ++ finishedImages l2) := by
        simpa [finishedImages, hj, List.filter_append, List.filter_cons] using hdones
      have : finishedImages (l1 ++ ⟨image, JobPc.finished⟩ :: l2)
          = finishedImages l1 ++ image :: finishedImages l2 := by
        simp [finishedImages, List.filter_append, List.filter_cons]
      show (dones body ++ dones [Event.done image]).Perm
        (finishedImages (l1 ++ ⟨image, JobPc.finished⟩ :: l2))
      rw [this]
      have e : dones [Event.done image] = [image] := rfl
      rw [e]
      exact (hd.append_right [image]).trans (by
        rw [List.append_assoc]
        exact List.Perm.append_left _ (List.perm_append_singleton image _))
    · rw [execs_append]
      simpa [execs] using hexecs
    · intro hc
      simp [hr] at hc
  · simp only [Batch.measure, hj, List.map_append, List.map_cons, List.sum_append, List.sum_cons,
      JobPc.remaining]
    omega

theorem stepJob_inv (w : World) (i : Nat) (images : List String) (log0 : List Event)
    (b b' : Batch) (h : BatchInv images log0 b) (hs : stepJob w i b = some b') :
    BatchInv images log0 b' ∧ b'.measure < b.measure := by
  unfold stepJob at hs
  cases hj : b.jobs[i]? with
  | none => simp [hj] at hs
  | some j =>
    obtain ⟨image, pc⟩ := j
    obtain ⟨l1, l2, e1, e2⟩ := set_split b.jobs i ⟨image, pc⟩ hj
    cases pc with
    | pull =>
      simp only [hj] at hs
      simp at hs
      subst hs
      rw [e2]
      by_cases he : cmdErr w b.log (pullCmd image) = none
      · simp only [he, if_true]
        exact exec_step_inv images log0 b h l1 l2 image JobPc.pull JobPc.load _ _ e1
          (by decide) (by decide) (by decide) (Or.inl rfl)
      · simp only [he, if_false]
        exact exec_step_inv images log0 b h l1 l2 image JobPc.pull JobPc.done _ _ e1
          (by decide) (by decide) (by decide) (Or.inl rfl)
    | load =>
      simp only [hj] at hs
      simp at hs
      subst hs
      rw [e2]
      exact exec_step_inv images log0 b h l1 l2 image JobPc.load JobPc.done _ _ e1
        (by decide) (by decide) (by decide) (Or.inr rfl)
    | done =>
      simp only [hj] at hs
      simp at hs
      subst hs
      rw [e2]
      exact done_step_inv images log0 b h l1 l2 image e1
    | finished => simp [hj] at hs

theorem step_inv (w : World) (tid : Nat) (images : List String) (log0 : List Event)
    (b b' : Batch) (h : BatchInv images log0 b) (hs : step w tid b = some b') :
    BatchInv images log0 b' ∧ b'.measure < b.measure := by
  cases tid with
  | zero => exact stepMain_inv images log0 b b' h hs
  | succ i => exact stepJob_inv w i images log0 b b' h hs

theorem runSched_inv (w : World) (images : List String) (log0 : List Event)
    (sched : List Nat) : ∀ b : Batch, BatchInv images log0 b →
      BatchInv images log0 (runSched w sched b) ∧ (runSched w sched b).measure ≤ b.measure := by
  induction sched with
  | nil => intro b h; exact ⟨h, Nat.le_refl _⟩
  | cons tid rest ih =>
    intro b h
    cases hs : step w tid b with
    | none =>
      simp only [runSched, hs, Option.getD_none]
      exact ih b h
    | some b1 =>
      simp only [runSched, hs, Option.getD_some]
      obtain ⟨h1, m1⟩ := step_inv w tid images log0 b b1 h hs
      obtain ⟨h2, m2⟩ := ih b1 h1
      exact ⟨h2, by omega⟩

/-- A batch that has not returned has a thread that can move. -/
theorem stepAny_progress (w : World) (images : List String) (log0 : List Event) (b : Batch)
    (h : BatchInv images log0 b) (hr : b.returned = false) : (stepAny w b).isSome = true := by
  unfold stepAny
  rw [List.findSome?_isSome_iff]
  by_cases hl : b.launched < b.images.length
  · refine ⟨0, by simp, ?_⟩
    simp [step, stepMain, hr, List.getElem?_eq_getElem hl, pullAndLoadImageSync]
  · have hnone : b.images[b.launched]? = none := List.getElem?_eq_none (by omega)
    by_cases hz : b.wg = 0
    · refine ⟨0, by simp, ?_⟩
      simp [step, stepMain, hr, hnone, hz]
    · have hpos : 0 < unfinished b.jobs := by
        have := h.hwg
        omega
      obtain ⟨i, j, hj, hpc⟩ := exists_unfinished b.jobs hpos
      have hi : i < b.jobs.length := by
        by_contra hc
        rw [List.getElem?_eq_none (by omega)] at hj
        simp at hj
      refine ⟨i + 1, ?_, ?_⟩
      · have h1 := h.hlaunched
        have h2 := h.hle
        have h3 := h.himages
        simp
        rw [h3]
        omega
      · obtain ⟨image, pc⟩ := j
        cases pc with
        | pull => simp [step, stepJob, hj]
        | load => simp [step, stepJob, hj]
        | done => simp [step, stepJob, hj]
        | finished => exact absurd rfl hpc

theorem drain_returns (w : World) (images : List String) (log0 : List Event) :
    ∀ (fuel : Nat) (b : Batch), BatchInv images log0 b → b.measure ≤ fuel →
      BatchInv images log0 (drain w fuel b) ∧ (drain w fuel b).returned = true := by
  intro fuel
  induction fuel with
  | zero =>
    intro b h hm
    refine ⟨h, ?_⟩
    show b.returned = true
    cases hr : b.returned with
    | true => rfl
    | false =>
      simp [Batch.measure, hr] at hm
  | succ fuel ih =>
    intro b h hm
    cases hs : stepAny w b with
    | none =>
      simp only [drain, hs]
      refine ⟨h, ?_⟩
      cases hr : b.returned with
      | true => rfl
      | false =>
        have := stepAny_progress w images log0 b h hr
        rw [hs] at this
        simp at this
    | some b1 =>
      simp only [drain, hs]
      obtain ⟨tid, _, ht⟩ := List.exists_of_findSome?_eq_some hs
      obtain ⟨h1, m1⟩ := step_inv w tid images log0 b b1 h ht
      exact ih b1 h1 (by omega)

theorem measure_init (images : List String) (log0 : List Event) :
    (Batch.init images log0).measure = 4 * images.length + 1 := by
  simp [Batch.measure, Batch.init]
  omega

/-- Every run of a batch ends past `wg.Wait()` with the invariant in force. -/
theorem runBatch_inv (w : World) (images : List String) (sched : List Nat)
    (log0 : List Event) :
    BatchInv images log0 (runBatch w images sched log0) ∧
    (runBatch w images sched log0).returned = true := by
  obtain ⟨h1, m1⟩ := runSched_inv w images log0 sched _ (batchInv_init images log0)
  rw [measure_init] at m1
  exact drain_returns w images log0 _ _ h1 m1

/-- What a run of a batch leaves behind: `err` is nil, every goroutine is at its
end, the counter is zero, and the events of the batch are a body followed by the
return of `wg.Wait()`, where the body launches the images in order and holds one
`Done` for each of them. -/
theorem runBatch_spec (w : World) (images : List String) (sched : List Nat)
    (log0 : List Event) :
    (runBatch w images sched log0).returned = true ∧
    (runBatch w images sched log0).err = none ∧
    (runBatch w images sched log0).wg = 0 ∧
    (runBatch w images sched log0).launched = images.length ∧
    (∀ j ∈ (runBatch w images sched log0).jobs, j.pc = JobPc.finished) ∧
    ∃ body, (runBatch w images sched log0).log = log0 ++ body ++ [Event.wait] ∧
      Event.wait ∉ body ∧ adds body = images ∧ (dones body).Perm images ∧
      ∀ c ∈ execs body, ∃ image ∈ images, c = pullCmd image ∨ c = loadCmd image := by
  obtain ⟨h, hr⟩ := runBatch_inv w images sched log0
  obtain ⟨hl, hu⟩ := h.hret hr
  have hall := unfinished_eq_zero _ hu
  refine ⟨hr, h.herr, by rw [h.hwg, hu]; rfl, hl, hall, ?_⟩
  obtain ⟨body, e1, e2, e3, e4, e5⟩ := h.hlog
  refine ⟨body, by simpa [hr] using e1, e2, by simpa [hl] using e3, ?_, e5⟩
  have hf : finishedImages (runBatch w images sched log0).jobs
      = (runBatch w images sched log0).jobs.map Job.image := by
    unfold finishedImages
    rw [List.filter_eq_self.mpr]
    intro j hj
    simp [hall j hj]
  rw [hf, h.hjobs, hl, List.take_length] at e4
  exact e4

/-! ## Pull-and-load jobs and the pipeline -/

/-- C2: `pullAndLoadImage` first runs `docker pull <image>`; when that returns
an error, the error is returned and no other command is run; when it returns
nil, `kind load docker-image <image>` is run once, after the pull, and its
result is returned. The image is passed as it is to both commands, and each
command is run at most once. -/
theorem pullAndLoadImage_sequence (w : World) (log : List Event) (image : String) :
    pullCmd image = ⟨"docker", ["pull", image]⟩ ∧
    loadCmd image = ⟨"kind", ["load", "docker-image", image]⟩ ∧
    (∀ e, cmdErr w log (pullCmd image) = some e →
      pullAndLoadImage w log image
        = (some e, log ++ [Event.exec (pullCmd image) (some e)])) ∧
    (cmdErr w log (pullCmd image) = none →
      pullAndLoadImage w log image
        = (cmdErr w (log ++ [Event.exec (pullCmd image) none]) (loadCmd image),
           log ++ [Event.exec (pullCmd image) none,
                   Event.exec (loadCmd image)
                     (cmdErr w (log ++ [Event.exec (pullCmd image) none]) (loadCmd image))])) := by
  refine ⟨rfl, rfl, ?_, ?_⟩
  · intro e h
    simp [pullAndLoadImage, execCommandAt, h]
  · intro h
    simp [pullAndLoadImage, execCommandAt, h]

/-- Witness of C2: `docker pull` fails to start with error 2, and `kind load` is
not run. -/
theorem pullAndLoadImage_sequence_witness :
    pullAndLoadImage (World.failingOn (fun c => decide (c.name = "docker")) (GoError.other 2))
        [] "redis:5.0.5-alpine"
      = (some (GoError.other 2),
         [] ++ [Event.exec (pullCmd "redis:5.0.5-alpine") (some (GoError.other 2))]) :=
  (pullAndLoadImage_sequence
    (World.failingOn (fun c => decide (c.name = "docker")) (GoError.other 2)) []
    "redis:5.0.5-alpine").2.2.1 (GoError.other 2) rfl

/-- C3: when the cluster creation command returns an error, `runE` returns that
error, and the only command it has run is the cluster creation: what it leaves
behind is the configuration file and that one call of `execCommand`. -/
theorem runE_stops_when_create_fails (w : World) (o : kindOption)
    (scheds : List (List Nat)) (log : List Event) (e : GoError)
    (h : cmdErr w (log ++ [Event.writeConfigFile "config.yaml" o.portMappings])
          (createClusterCmd o) = some e) :
    (runE w o scheds log).err = some e ∧
    (runE w o scheds log).log
      = log ++ [Event.writeConfigFile "config.yaml" o.portMappings,
                Event.exec (createClusterCmd o) (some e)] ∧
    execs [Event.writeConfigFile "config.yaml" o.portMappings,
           Event.exec (createClusterCmd o) (some e)] = [createClusterCmd o] ∧
    createClusterCmd o
      = ⟨"kind", ["create", "cluster", "--image", "kindest/node:v1.18.2", "--config",
          "config.yaml", "--name", o.name]⟩ := by
  refine ⟨?_, ?_, rfl, rfl⟩
  · simp [runE, execCommandAt, h]
  · simp [runE, execCommandAt, h]

/-- The cluster creation command does not depend on the option `version`: the
node image is always `kindest/node:v1.18.2`. -/
theorem createClusterCmd_ignores_version (o : kindOption) (v : String) :
    createClusterCmd { o with version := v } = createClusterCmd o := rfl

/-- Witness of C3: `kind` fails to start with error 2. -/
theorem runE_stops_when_create_fails_witness :
    (runE (World.failingOn (fun c => decide (c.name = "kind")) (GoError.other 2))
        kindOption.example [] []).err = some (GoError.other 2) ∧
    (runE (World.failingOn (fun c => decide (c.name = "kind")) (GoError.other 2))
        kindOption.example [] []).log
      = [] ++ [Event.writeConfigFile "config.yaml" kindOption.example.portMappings,
               Event.exec (createClusterCmd kindOption.example) (some (GoError.other 2))] ∧
    execs [Event.writeConfigFile "config.yaml" kindOption.example.portMappings,
           Event.exec (createClusterCmd kindOption.example) (some (GoError.other 2))]
      = [createClusterCmd kindOption.example] ∧
    createClusterCmd kindOption.example
      = ⟨"kind", ["create", "cluster", "--image", "kindest/node:v1.18.2", "--config",
          "config.yaml", "--name", kindOption.example.name]⟩ :=
  runE_stops_when_create_fails
    (World.failingOn (fun c => decide (c.name = "kind")) (GoError.other 2))
    kindOption.example [] [] (GoError.other 2) rfl

theorem loadComponents_log (w : World) (comps : List String) :
    ∀ (err : Option GoError) (scheds : List (List Nat)) (log : List Event),
      ∃ ext, (loadComponents w comps err scheds log).2.2 = log ++ ext := by
  induction comps with
  | nil => intro err scheds log; exact ⟨[], by simp [loadComponents]⟩
  | cons com rest ih =>
    intro err scheds log
    by_cases hc : com = "devops"
    · obtain ⟨_, _, _, _, _, body, hb, _⟩ :=
        runBatch_spec w devOpsImages (scheds.headD []) log
      obtain ⟨ext, he⟩ := ih (runBatch w devOpsImages (scheds.headD []) log).err scheds.tail
        (runBatch w devOpsImages (scheds.headD []) log).log
      refine ⟨body ++ [Event.wait] ++ ext, ?_⟩
      simp only [loadComponents, hc, if_true, loadImagesOfDevOps]
      rw [he, hb]
      simp
    · obtain ⟨ext, he⟩ := ih err scheds log
      exact ⟨ext, by simp only [loadComponents, hc, if_false]; exact he⟩

theorem reset_log (w : World) (o : kindOption) (sched : List Nat) (log : List Event) :
    ∃ ext, (reset w o sched log).log = log ++ ext := by
  unfold reset
  by_cases ht : (getNightlyTag w.now o.Nightly).2 = ""
  · exact ⟨[], by simp [ht]⟩
  · obtain ⟨_, herr, _, _, _, body, hb, _⟩ :=
      runBatch_spec w (nightlyImages (getNightlyTag w.now o.Nightly).2) sched log
    simp only [ht, if_false, herr, execCommandAt]
    rw [hb]
    exact ⟨_, by simp only [List.append_assoc]; rfl⟩

/-- C4: when the cluster creation and the reachability check return nil, then
for every behaviour of the pull and load commands and every interleaving of the
jobs, `loadCoreImageOfKS` returns nil, and the next command of `runE` after the
batch is the apply of the installer manifest; when that returns nil the next
command is the apply of the cluster-configuration manifest; an error of either
apply ends `runE` with that error. Each URL is the fixed text with `ksVersion`
put in. -/
theorem runE_applies_manifests_in_order (w : World) (o : kindOption)
    (scheds : List (List Nat)) (log : List Event)
    (hcreate : cmdErr w (log ++ [Event.writeConfigFile "config.yaml" o.portMappings])
      (createClusterCmd o) = none)
    (hinfo : cmdErr w (log ++ [Event.writeConfigFile "config.yaml" o.portMappings,
      Event.exec (createClusterCmd o) none]) (clusterInfoCmd o) = none) :
    (loadCoreImageOfKS w (scheds.headD [])
      (log ++ [Event.writeConfigFile "config.yaml" o.portMappings,
        Event.exec (createClusterCmd o) none, Event.exec (clusterInfoCmd o) none])).1 = none ∧
    (∃ body r1 rest,
      (runE w o scheds log).log
        = log ++ [Event.writeConfigFile "config.yaml" o.portMappings,
            Event.exec (createClusterCmd o) none, Event.exec (clusterInfoCmd o) none]
          ++ body
          ++ [Event.wait, Event.exec (applyCmd (installerURL o.ksVersion)) r1] ++ rest ∧
      Event.wait ∉ body ∧ adds body = coreImages ∧ (dones body).Perm coreImages ∧
      (∀ c ∈ execs body, ∃ image ∈ coreImages, c = pullCmd image ∨ c = loadCmd image) ∧
      (∀ e, r1 = some e → rest = [] ∧ (runE w o scheds log).err = some e) ∧
      (r1 = none → ∃ r2 rest2,
        rest = Event.exec (applyCmd (clusterConfigurationURL o.ksVersion)) r2 :: rest2 ∧
        (∀ e, r2 = some e → rest2 = [] ∧ (runE w o scheds log).err = some e))) ∧
    installerURL o.ksVersion
      = "https://github.com/kubesphere/ks-installer/releases/download/" ++ o.ksVersion
          ++ "/kubesphere-installer.yaml" ∧
    clusterConfigurationURL o.ksVersion
      = "https://github.com/kubesphere/ks-installer/releases/download/" ++ o.ksVersion
          ++ "/cluster-configuration.yaml" ∧
    applyCmd (installerURL o.ksVersion) = ⟨"kubectl", ["apply", "-f", installerURL o.ksVersion]⟩ := by
  obtain ⟨_, herr, _, _, _, body, hb, hnw, hadds, hdones, hexecs⟩ :=
    runBatch_spec w coreImages (scheds.headD [])
      (log ++ [Event.writeConfigFile "config.yaml" o.portMappings,
        Event.exec (createClusterCmd o) none, Event.exec (clusterInfoCmd o) none])
  refine ⟨by simp only [loadCoreImageOfKS]; exact herr, ?_, rfl, rfl, rfl⟩
  have hinfo' : cmdErr w (log ++ [Event.writeConfigFile "config.yaml" o.portMappings]
      ++ [Event.exec (createClusterCmd o) none]) (clusterInfoCmd o) = none := by
    simpa using hinfo
  have hl2 : log ++ [Event.writeConfigFile "config.yaml" o.portMappings]
      ++ [Event.exec (createClusterCmd o) none] ++ [Event.exec (clusterInfoCmd o) none]
      = log ++ [Event.writeConfigFile "config.yaml" o.portMappings,
        Event.exec (createClusterCmd o) none, Event.exec (clusterInfoCmd o) none] := by
    simp
  refine ⟨body, cmdErr w (runBatch w coreImages (scheds.headD [])
      (log ++ [Event.writeConfigFile "config.yaml" o.portMappings,
        Event.exec (createClusterCmd o) none, Event.exec (clusterInfoCmd o) none])).log
      (applyCmd (installerURL o.ksVersion)), ?_⟩
  cases h1 : cmdErr w (runBatch w coreImages (scheds.headD [])
      (log ++ [Event.writeConfigFile "config.yaml" o.portMappings,
        Event.exec (createClusterCmd o) none, Event.exec (clusterInfoCmd o) none])).log
      (applyCmd (installerURL o.ksVersion)) with
  | some e1 =>
    refine ⟨[], ?_, hnw, hadds, hdones, hexecs, ?_, ?_⟩
    · simp only [runE, execCommandAt, hcreate, hinfo', hl2, loadCoreImageOfKS, herr, h1]
      rw [hb]
      simp
    · intro e he
      refine ⟨rfl, ?_⟩
      simp only [runE, execCommandAt, hcreate, hinfo', hl2, loadCoreImageOfKS, herr, h1]
      exact he
    · intro hc
      simp at hc
  | none =>
    cases h2 : cmdErr w ((runBatch w coreImages (scheds.headD [])
        (log ++ [Event.writeConfigFile "config.yaml" o.portMappings,
          Event.exec (createClusterCmd o) none, Event.exec (clusterInfoCmd o) none])).log
        ++ [Event.exec (applyCmd (installerURL o.ksVersion)) none])
        (applyCmd (clusterConfigurationURL o.ksVersion)) with
    | some e2 =>
      refine ⟨[Event.exec (applyCmd (clusterConfigurationURL o.ksVersion)) (some e2)],
        ?_, hnw, hadds, hdones, hexecs, ?_, ?_⟩
      · simp only [runE, execCommandAt, hcreate, hinfo', hl2, loadCoreImageOfKS, herr, h1, h2]
        rw [hb]
        simp
      · intro e he
        simp at he
      · intro _
        refine ⟨some e2, [], rfl, ?_⟩
        intro e he
        refine ⟨rfl, ?_⟩
        simp only [runE, execCommandAt, hcreate, hinfo', hl2, loadCoreImageOfKS, herr, h1, h2]
        exact he
    | none =>
      obtain ⟨ext1, hx1⟩ := loadComponents_log w o.components none scheds.tail
        ((runBatch w coreImages (scheds.headD [])
          (log ++ [Event.writeConfigFile "config.yaml" o.portMappings,
            Event.exec (createClusterCmd o) none, Event.exec (clusterInfoCmd o) none])).log
          ++ [Event.exec (applyCmd (installerURL o.ksVersion)) none]
          ++ [Event.exec (applyCmd (clusterConfigurationURL o.ksVersion)) none]
          ++ [Event.println patchHint])
      by_cases hreset : o.Reset = true
      · obtain ⟨ext2, hx2⟩ := reset_log w o
          ((loadComponents w o.components none scheds.tail
            ((runBatch w coreImages (scheds.headD [])
              (log ++ [Event.writeConfigFile "config.yaml" o.portMappings,
                Event.exec (createClusterCmd o) none,
                Event.exec (clusterInfoCmd o) none])).log
              ++ [Event.exec (applyCmd (installerURL o.ksVersion)) none]
              ++ [Event.exec (applyCmd (clusterConfigurationURL o.ksVersion)) none]
              ++ [Event.println patchHint])).2.1.headD [])
          (loadComponents w o.components none scheds.tail
            ((runBatch w coreImages (scheds.headD [])
              (log ++ [Event.writeConfigFile "config.yaml" o.portMappings,
                Event.exec (createClusterCmd o) none,
                Event.exec (clusterInfoCmd o) none])).log
              ++ [Event.exec (applyCmd (installerURL o.ksVersion)) none]
              ++ [Event.exec (applyCmd (clusterConfigurationURL o.ksVersion)) none]
              ++ [Event.println patchHint])).2.2
        refine ⟨Event.exec (applyCmd (clusterConfigurationURL o.ksVersion)) none
            :: Event.println patchHint :: (ext1 ++ ext2),
          ?_, hnw, hadds, hdones, hexecs, ?_, ?_⟩
        · simp only [runE, execCommandAt, hcreate, hinfo', hl2, loadCoreImageOfKS, herr, h1,
            h2, hreset, if_true]
          rw [hx2, hx1, hb]
          simp
        · intro e he
          simp at he
        · intro _
          exact ⟨none, _, rfl, by intro e he; simp at he⟩
      · refine ⟨Event.exec (applyCmd (clusterConfigurationURL o.ksVersion)) none
            :: Event.println patchHint :: ext1,
          ?_, hnw, hadds, hdones, hexecs, ?_, ?_⟩
        · simp only [runE, execCommandAt, hcreate, hinfo', hl2, loadCoreImageOfKS, herr, h1,
            h2, hreset]
          simp only [Bool.false_eq_true, if_false]
          rw [hx1, hb]
          simp
        · intro e he
          simp at he
        · intro _
          exact ⟨none, _, rfl, by intro e he; simp at he⟩

/-- Witness of C4: every `docker pull` fails to start, while `kind` and `kubectl`
work. -/
theorem runE_applies_manifests_in_order_witness :
    (loadCoreImageOfKS (World.failingOn (fun c => decide (c.name = "docker")) (GoError.other 2))
      ([[0, 1, 1]].headD [])
      ([] ++ [Event.writeConfigFile "config.yaml" kindOption.example.portMappings,
        Event.exec (createClusterCmd kindOption.example) none,
        Event.exec (clusterInfoCmd kindOption.example) none])).1 = none :=
  (runE_applies_manifests_in_order
    (World.failingOn (fun c => decide (c.name = "docker")) (GoError.other 2))
    kindOption.example [[0, 1, 1]] [] rfl rfl).1

theorem getNightlyTag_tag (now : Date) (date : String) :
    (getNightlyTag now date).2 = "" ∨
    (getNightlyTag now date).2 = "nightly-" ++ (getNightlyTag now date).1 := by
  unfold getNightlyTag
  by_cases h1 : date = "latest"
  · simp [h1]
  · by_cases h2 : date = ""
    · simp [h2]
    · rw [if_neg h1, if_pos h2]
      cases parseHyphenated date with
      | some t => exact Or.inr rfl
      | none =>
        cases parseCompact date with
        | some t => exact Or.inr rfl
        | none => exact Or.inl rfl

/-- C9 (as amended): when the nightly token resolves to the compact date `d` and
the tag `t`, which is "nightly-" followed by `d`, `reset` launches the jobs of
the four images tagged `t`, waits until each of them has called `Done`, and
then runs `kubectl ks com reset --nightly d -a`, with the compact date `d` as
the value of `--nightly`, and returns the result of that command. -/
theorem reset_syncs_then_resets (w : World) (o : kindOption) (sched : List Nat)
    (log : List Event) (h : (getNightlyTag w.now o.Nightly).2 ≠ "") :
    (getNightlyTag w.now o.Nightly).2 = "nightly-" ++ (getNightlyTag w.now o.Nightly).1 ∧
    nightlyImages (getNightlyTag w.now o.Nightly).2
      = ["kubespheredev/ks-installer:" ++ (getNightlyTag w.now o.Nightly).2,
         "kubespheredev/ks-apiserver:" ++ (getNightlyTag w.now o.Nightly).2,
         "kubespheredev/ks-controller-manager:" ++ (getNightlyTag w.now o.Nightly).2,
         "kubespheredev/ks-console:" ++ (getNightlyTag w.now o.Nightly).2] ∧
    resetCmd (getNightlyTag w.now o.Nightly).1
      = ⟨"kubectl", ["ks", "com", "reset", "--nightly", (getNightlyTag w.now o.Nightly).1,
          "-a"]⟩ ∧
    (reset w o sched log).opt.Nightly = (getNightlyTag w.now o.Nightly).1 ∧
    ∃ body,
      (reset w o sched log).log
        = log ++ body
          ++ [Event.wait,
              Event.exec (resetCmd (getNightlyTag w.now o.Nightly).1)
                (reset w o sched log).err] ∧
      Event.wait ∉ body ∧
      adds body = nightlyImages (getNightlyTag w.now o.Nightly).2 ∧
      (dones body).Perm (nightlyImages (getNightlyTag w.now o.Nightly).2) ∧
      ∀ c ∈ execs body, ∃ image ∈ nightlyImages (getNightlyTag w.now o.Nightly).2,
        c = pullCmd image ∨ c = loadCmd image := by
  obtain ⟨_, herr, _, _, _, body, hb, hnw, hadds, hdones, hexecs⟩ :=
    runBatch_spec w (nightlyImages (getNightlyTag w.now o.Nightly).2) sched log
  refine ⟨?_, rfl, rfl, ?_, body, ?_, hnw, hadds, hdones, hexecs⟩
  · rcases getNightlyTag_tag w.now o.Nightly with h1 | h1
    · exact absurd h1 h
    · exact h1
  · simp only [reset, h, if_false, herr, execCommandAt]
  · simp only [reset, h, if_false, herr, execCommandAt]
    rw [hb]
    simp

/-- Witness of C9 (as amended): the token "latest" on 3 January 2020. -/
theorem reset_syncs_then_resets_witness :
    (reset World.quiet { kindOption.example with Nightly := "latest" } [0, 1, 0, 1] []).opt.Nightly
      = (getNightlyTag World.quiet.now
          ({ kindOption.example with Nightly := "latest" } : kindOption).Nightly).1 :=
  (reset_syncs_then_resets World.quiet { kindOption.example with Nightly := "latest" }
    [0, 1, 0, 1] [] (by decide)).2.2.2.1

/-- Counterexample to C9 as stated: for the token "20200102" the tag is
"nightly-20200102", and the last command of `reset` is
`kubectl ks com reset --nightly 20200102 -a`: the value of `--nightly` is the
compact date, not the tag. -/
theorem reset_passes_date_not_tag :
    (getNightlyTag World.quiet.now kindOption.example.Nightly).2 = "nightly-20200102" ∧
    (reset World.quiet kindOption.example [] []).log.getLast?
      = some (Event.exec
          ⟨"kubectl", ["ks", "com", "reset", "--nightly", "20200102", "-a"]⟩ none) ∧
    Event.exec ⟨"kubectl", ["ks", "com", "reset", "--nightly", "nightly-20200102", "-a"]⟩ none
      ∉ (reset World.quiet kindOption.example [] []).log := by
  refine ⟨by rfl, by rfl, by decide⟩

/-- C10 (as amended): every batch, for every behaviour of its commands and
every interleaving of its threads, gets past `wg.Wait()`, and does so only after
every job it launched has called `Done`: it returns nil, the counter is zero,
every goroutine is at its end, and the events of the batch are the launches of
its images in order, one `Done` for each image, and only then the return of
`wg.Wait()`, which is the last event and happens once. This holds of
`loadCoreImageOfKS`, `loadImagesOfDevOps` and the batch of `reset`, which are
the batches over `coreImages`, `devOpsImages` and `nightlyImages tag`. -/
theorem batch_waits_for_every_job (w : World) (images : List String) (sched : List Nat)
    (log : List Event) :
    (runBatch w images sched log).returned = true ∧
    (runBatch w images sched log).err = none ∧
    (runBatch w images sched log).wg = 0 ∧
    (runBatch w images sched log).jobs.length = images.length ∧
    (∀ j ∈ (runBatch w images sched log).jobs, j.pc = JobPc.finished) ∧
    (∃ body, (runBatch w images sched log).log = log ++ body ++ [Event.wait] ∧
      Event.wait ∉ body ∧ adds body = images ∧ (dones body).Perm images) ∧
    loadCoreImageOfKS w sched log
      = ((runBatch w coreImages sched log).err, (runBatch w coreImages sched log).log) ∧
    loadImagesOfDevOps w sched log
      = ((runBatch w devOpsImages sched log).err, (runBatch w devOpsImages sched log).log) := by
  obtain ⟨h1, h2, h3, h4, h5, body, h6, h7, h8, h9, _⟩ := runBatch_spec w images sched log
  have hinv := (runBatch_inv w images sched log).1
  refine ⟨h1, h2, h3, ?_, h5, ⟨body, h6, h7, h8, h9⟩, rfl, rfl⟩
  rw [← hinv.hlaunched, h4]

/-- Counterexample to C10 as stated: in the run of `loadCoreImageOfKS` in which
the first job runs to its `Done` before the second job is launched, the counter
of the wait group takes the values 1, 0, 1, 2, ..., 7, 6, ..., 0: it reaches zero
twice, the first time with seven jobs not yet launched, and it never equals the
number of launched jobs, 8. -/
theorem waitgroup_counter_reaches_zero_twice :
    wgTrace 0 (loadCoreImageOfKS World.quiet [0, 1, 1, 1] []).2
      = [1, 0, 1, 2, 3, 4, 5, 6, 7, 6, 5, 4, 3, 2, 1, 0] ∧
    (adds (loadCoreImageOfKS World.quiet [0, 1, 1, 1] []).2).length = 8 := by
  refine ⟨by rfl, by rfl⟩

/-- Witness of C10 (as amended): the run of `loadCoreImageOfKS` in which the
first job finishes before the second is launched also ends past `wg.Wait()`. -/
theorem batch_waits_for_every_job_witness :
    (runBatch World.quiet coreImages [0, 1, 1, 1] []).returned = true :=
  (batch_waits_for_every_job World.quiet coreImages [0, 1, 1, 1] []).1

/-- The steps of one goroutine, taken together, are `pullAndLoadImage` followed
by `Done`: three turns of goroutine `i` that stands before its pull leave the
events of `pullAndLoadImage` for its image and then the `Done` of that image. -/
theorem job_steps_eq_pullAndLoadImage (w : World) (b : Batch) (i : Nat) (image : String)
    (hj : b.jobs[i]? = some ⟨image, JobPc.pull⟩) :
    (runSched w [i + 1, i + 1, i + 1] b).log
      = (pullAndLoadImage w b.log image).2 ++ [Event.done image] := by
  have hi : i < b.jobs.length := by
    by_contra hc
    rw [List.getElem?_eq_none (by omega)] at hj
    simp at hj
  cases he : cmdErr w b.log (pullCmd image) with
  | none =>
    simp [runSched, step, stepJob, hj, he, hi, pullAndLoadImage, execCommandAt]
  | some e =>
    simp [runSched, step, stepJob, hj, he, hi, pullAndLoadImage, execCommandAt]

end Ks
